import Mathlib

/-!
Verification development for the yt-search-lib repository.

The library has three cores, embedded here from the JavaScript sources:

* `src/lib/parser.js` — `getText`, the three renderer parsers, and
  `parseSearchResults`, modelled over an untyped JSON value type `Json`
  with JavaScript property-access semantics (reading a property of
  `null`/`undefined` throws, reading a missing property yields
  `undefined`, truthiness drives every `if`).  Computations that may
  throw run in `Except Unit`; the top-level traversal runs in
  `Except PageAcc` so that a thrown error carries the records and token
  accumulated before the failure, exactly like the mutable `results` /
  `continuationToken` variables survive the `catch` in the source.

* `src/lib/cache.js` — the `LRUCache` over a persistent string store
  (`localStorage`).  The store maps full keys to parsed documents: a
  cache entry `{value, timestamp}` or the persisted key-index list
  (stored under the reserved full key `namespace ++ "keys"`).

* the two `YouTubeClient.search` variants — the paginating one
  (default limit 20, continuation loop with dedup) and the
  non-paginating one (default limit 5) which applies `.filter`/`.slice`
  directly to the object returned by `parseSearchResults`.
-/

/-- Untyped JSON-ish value as manipulated by the JavaScript sources.
`null` and `undefined` are kept distinct (both are falsy and both throw on
property access; a missing object field reads as `undefined`). Numbers are
modelled as integers; no claim in this development depends on float
behaviour. -/
inductive Json where
  | null
  | undefined
  | bool (b : Bool)
  | num (n : Int)
  | str (s : String)
  | arr (elems : List Json)
  | obj (fields : List (String × Json))

/-- JavaScript truthiness. -/
def Json.truthy : Json → Bool
  | .null => false
  | .undefined => false
  | .bool b => b
  | .num n => n != 0
  | .str s => s != ""
  | .arr _ => true
  | .obj _ => true

/-- First binding of a field name in an object's field list. -/
def jlookup (fields : List (String × Json)) (f : String) : Option Json :=
  match fields.find? (fun p => p.1 == f) with
  | some p => some p.2
  | none => none

/-- Plain property read `a.f`: throws (TypeError) when the base is
`null`/`undefined`; a missing field reads as `undefined`; primitives
and arrays expose `length` where JavaScript does and `undefined`
otherwise. -/
def Json.getf : Json → String → Except Unit Json
  | .null, _ => .error ()
  | .undefined, _ => .error ()
  | .obj fs, f => .ok ((jlookup fs f).getD .undefined)
  | .arr xs, f => .ok (if f == "length" then .num xs.length else .undefined)
  | .str s, f => .ok (if f == "length" then .num s.length else .undefined)
  | _, _ => .ok .undefined

/-- Optional-chain property read `a?.f` (also used for a plain read on
a base already known to be non-nullish, where the two agree). -/
def Json.getfOpt : Json → String → Json
  | .null, _ => .undefined
  | .undefined, _ => .undefined
  | .obj fs, f => (jlookup fs f).getD .undefined
  | .arr xs, f => if f == "length" then .num xs.length else .undefined
  | .str s, f => if f == "length" then .num s.length else .undefined
  | _, _ => .undefined

/-- JavaScript `a || b`. -/
def jsOr (a b : Json) : Json :=
  if a.truthy then a else b

mutual

/-- JavaScript stringification as used by template literals and by
`Array.prototype.join`'s treatment of elements. -/
def Json.toJs : Json → String
  | .null => "null"
  | .undefined => "undefined"
  | .bool b => cond b "true" "false"
  | .num n => toString n
  | .str s => s
  | .arr xs => joinComma xs
  | .obj _ => "[object Object]"
termination_by structural j => j

/-- Array stringification: `join(",")` with `null`/`undefined`
elements rendered as the empty string. -/
def joinComma : List Json → String
  | [] => ""
  | x :: rest =>
      (match x with | .null => "" | .undefined => "" | y => Json.toJs y) ++
      (if rest.isEmpty then "" else "," ++ joinComma rest)
termination_by structural xs => xs

end

/-- The `join('')` applied to the run texts in `getText`: elements are
stringified, with `null`/`undefined` rendered as the empty string. -/
def jsJoinEmpty (xs : List Json) : String :=
  String.join (xs.map (fun x => match x with | .null => "" | .undefined => "" | y => y.toJs))

/-- Element read `x?.[0]`. On an object this reads the field `"0"`;
on a string it yields the first character. -/
def Json.jsAt0 : Json → Json
  | .null => .undefined
  | .undefined => .undefined
  | .arr xs => (xs.head?).getD .undefined
  | .str s => match s.toList.head? with
      | some c => .str c.toString
      | none => .undefined
  | .obj fs => (jlookup fs "0").getD .undefined
  | _ => .undefined

/-- Element read `x?.[x.length - 1]` (the last-thumbnail access in
`parseVideoRenderer`). On a non-array, non-string base the index is
`NaN` and the read yields `undefined`. -/
def Json.jsAtLast : Json → Json
  | .arr xs => (xs.getLast?).getD .undefined
  | .str s => match s.toList.getLast? with
      | some c => .str c.toString
      | none => .undefined
  | _ => .undefined

/-- Values accepted by a `for...of` loop: arrays iterate their
elements, strings iterate their characters, everything else throws. -/
def jsIterate : Json → Option (List Json)
  | .arr xs => some xs
  | .str s => some (s.toList.map (fun c => Json.str c.toString))
  | _ => none

/-- The equality used by `Set.prototype.has` on the record ids
(SameValueZero). Objects and arrays compare by reference; distinct
parse products are distinct references, so they are never equal. -/
def jsEq : Json → Json → Bool
  | .null, .null => true
  | .undefined, .undefined => true
  | .bool a, .bool b => a == b
  | .num a, .num b => a == b
  | .str a, .str b => a == b
  | _, _ => false

/-- A parsed result record, tagged by the `type` field the parser
writes (`video` / `channel` / `playlist`). -/
inductive Record where
  | video (id : Json) (link : String)
      (title thumbnails thumbnail_url author duration publishedAt viewCount description badges : Json)
  | channel (id title thumbnails description subscriberCount videoCount : Json)
  | playlist (id title thumbnails videoCount author : Json)

/-- The `type` discriminator field of a record. -/
def Record.type : Record → String
  | .video .. => "video"
  | .channel .. => "channel"
  | .playlist .. => "playlist"

/-- The `id` field of a record. -/
def Record.id : Record → Json
  | .video i _ _ _ _ _ _ _ _ _ _ => i
  | .channel i _ _ _ _ _ => i
  | .playlist i _ _ _ _ => i

/-- The expression `runs.map((r) => r.text)`: left-to-right, throwing
at the first nullish run. -/
def mapTexts : List Json → Except Unit (List Json)
  | [] => .ok []
  | r :: rest => do
    let t ← r.getf "text"
    let ts ← mapTexts rest
    .ok (t :: ts)

/-- `getText` from `parser.js`. Absent/falsy input yields `''`; a
string yields itself; a truthy `simpleText` yields that value; a
truthy `runs` is mapped over `r.text` and joined (throwing when `runs`
is not an array or a run is nullish); otherwise `''`. The base is
truthy past the first test, so its field reads cannot throw. -/
def getText (data : Json) : Except Unit Json :=
  if !data.truthy then .ok (.str "")
  else match data with
  | .str s => .ok (.str s)
  | _ =>
    let st := data.getfOpt "simpleText"
    if st.truthy then .ok st
    else
      let runs := data.getfOpt "runs"
      if runs.truthy then
        match runs with
        | .arr xs => do
            let texts ← mapTexts xs
            .ok (.str (jsJoinEmpty texts))
        | _ => .error ()
      else .ok (.str "")

/-- The expression `badges.map((b) => b.metadataBadgeRenderer?.label)`:
left-to-right, throwing at the first nullish element. -/
def mapBadgeLabels : List Json → Except Unit (List Json)
  | [] => .ok []
  | b :: rest => do
    let m ← b.getf "metadataBadgeRenderer"
    let ls ← mapBadgeLabels rest
    .ok (m.getfOpt "label" :: ls)

/-- The badges expression of `parseVideoRenderer`:
`video.badges?.map((b) => b.metadataBadgeRenderer?.label).filter(Boolean) || []`.
A nullish `badges` short-circuits to `undefined` and the `|| []`
supplies the empty array; a truthy non-array has no `.map` and
throws; a nullish element throws on its plain property read. -/
def parseBadges (bs : Json) : Except Unit Json :=
  match bs with
  | .null => .ok (.arr [])
  | .undefined => .ok (.arr [])
  | .arr xs => do
      let labs ← mapBadgeLabels xs
      .ok (.arr (labs.filter Json.truthy))
  | _ => .error ()

/-- `parseVideoRenderer` from `parser.js`. Field reads on the truthy
`video` base are plain accesses that cannot throw and are written with
`getfOpt`; only the `getText` calls and the badges mapping can throw. -/
def parseVideoRenderer (item : Json) : Except Unit (Option Record) :=
  match item.getf "videoRenderer" with
  | .error e => .error e
  | .ok video =>
    if !video.truthy then .ok none
    else do
      let videoId := video.getfOpt "videoId"
      let title ← getText (video.getfOpt "title")
      let thumbs := (video.getfOpt "thumbnail").getfOpt "thumbnails"
      let author ← getText (video.getfOpt "ownerText")
      let duration ← getText (video.getfOpt "lengthText")
      let publishedAt ← getText (video.getfOpt "publishedTimeText")
      let viewCount ← getText (video.getfOpt "viewCountText")
      let d1 ← getText (((video.getfOpt "detailedMetadataSnippets").jsAt0).getfOpt "snippetText")
      let description ← if d1.truthy then pure d1 else getText (video.getfOpt "descriptionSnippet")
      let badges ← parseBadges (video.getfOpt "badges")
      .ok (some (Record.video videoId
        ("https://www.youtube.com/watch?v=" ++ videoId.toJs)
        title
        (jsOr thumbs (.arr []))
        (jsOr ((thumbs.jsAtLast).getfOpt "url") (.str ""))
        author duration publishedAt viewCount description badges))

/-- `parseChannelRenderer` from `parser.js`. -/
def parseChannelRenderer (item : Json) : Except Unit (Option Record) :=
  match item.getf "channelRenderer" with
  | .error e => .error e
  | .ok channel =>
    if !channel.truthy then .ok none
    else do
      let title ← getText (channel.getfOpt "title")
      let description ← getText (channel.getfOpt "descriptionSnippet")
      let subscriberCount ← getText (channel.getfOpt "subscriberCountText")
      let videoCount ← getText (channel.getfOpt "videoCountText")
      .ok (some (Record.channel (channel.getfOpt "channelId") title
        (jsOr ((channel.getfOpt "thumbnail").getfOpt "thumbnails") (.arr []))
        description subscriberCount videoCount))

/-- `parsePlaylistRenderer` from `parser.js`; playlist thumbnails are
nested one level deeper (`playlist.thumbnails?.[0]?.thumbnails`). -/
def parsePlaylistRenderer (item : Json) : Except Unit (Option Record) :=
  match item.getf "playlistRenderer" with
  | .error e => .error e
  | .ok playlist =>
    if !playlist.truthy then .ok none
    else do
      let title ← getText (playlist.getfOpt "title")
      let videoCount ← getText (playlist.getfOpt "videoCountText")
      let author ← getText (playlist.getfOpt "longBylineText")
      .ok (some (Record.playlist (playlist.getfOpt "playlistId") title
        (jsOr (((playlist.getfOpt "thumbnails").jsAt0).getfOpt "thumbnails") (.arr []))
        videoCount author))

/-- The per-item dispatch of `parseSearchResults` (lines 144-152 of
`parser.js`): `if (item.videoRenderer) ... else if (item.channelRenderer)
... else if (item.playlistRenderer) ...`, truthiness-driven and in that
fixed order. The first read throws when the item itself is nullish. -/
def classifyItem (item : Json) : Except Unit (Option Record) :=
  match item.getf "videoRenderer" with
  | .error e => .error e
  | .ok v =>
    if v.truthy then parseVideoRenderer item
    else if (item.getfOpt "channelRenderer").truthy then parseChannelRenderer item
    else if (item.getfOpt "playlistRenderer").truthy then parsePlaylistRenderer item
    else .ok none

/-- Accumulator of the traversal: the records pushed so far and the
continuation token assigned so far (initially `null`). -/
abbrev PageAcc := List Record × Json

/-- The inner `for (const item of items)` loop: classify each item,
push non-null results. A thrown classification aborts with the
accumulator as it stands. -/
def parseItems (acc : PageAcc) : List Json → Except PageAcc PageAcc
  | [] => .ok acc
  | item :: rest =>
    match classifyItem item with
    | .error _ => .error acc
    | .ok none => parseItems acc rest
    | .ok (some r) => parseItems (acc.1 ++ [r], acc.2) rest

/-- The `for (const section of contents)` loop of `parseSearchResults`.
Reading `section.itemSectionRenderer` throws on a nullish section; the
section's own renderer keys make it a direct single item; the
continuation token is (re)assigned after the section's items. -/
def parseSections (acc : PageAcc) : List Json → Except PageAcc PageAcc
  | [] => .ok acc
  | sec :: rest =>
    match sec.getf "itemSectionRenderer" with
    | .error _ => .error acc
    | .ok isr =>
      let items : Json :=
        if isr.truthy then isr.getfOpt "contents"
        else if (sec.getfOpt "videoRenderer").truthy
            || (sec.getfOpt "channelRenderer").truthy
            || (sec.getfOpt "playlistRenderer").truthy then .arr [sec]
        else .arr []
      match jsIterate items with
      | none => .error acc
      | some xs =>
        match parseItems acc xs with
        | .error a => .error a
        | .ok acc1 =>
          let cir := sec.getfOpt "continuationItemRenderer"
          let acc2 : PageAcc :=
            if cir.truthy then
              (acc1.1, ((cir.getfOpt "continuationEndpoint").getfOpt "continuationCommand").getfOpt "token")
            else acc1
          parseSections acc2 rest

/-- `cmds.find(cmd => cmd.appendContinuationItemsAction)`: the
predicate's plain read throws on a nullish element. -/
def jsFindAppend : List Json → Except PageAcc (Option Json)
  | [] => .ok none
  | cmd :: rest =>
    match cmd.getf "appendContinuationItemsAction" with
    | .error _ => .error ([], .null)
    | .ok v => if v.truthy then .ok (some cmd) else jsFindAppend rest

/-- The body inside the `try` of `parseSearchResults`: locate the
section container (initial shape, else the continuation-commands
shape), bail out with an empty page when none is found, then run the
section loop. A thrown error carries the accumulator at that point. -/
def parseTraverse (response : Json) : Except PageAcc PageAcc :=
  match response.getf "contents" with
  | .error _ => .error ([], .null)
  | .ok c1 =>
    let contents0 :=
      (((c1.getfOpt "twoColumnSearchResultsRenderer").getfOpt "primaryContents").getfOpt
        "sectionListRenderer").getfOpt "contents"
    let contentsE : Except PageAcc Json :=
      if !contents0.truthy then
        let cmds := response.getfOpt "onResponseReceivedCommands"
        if cmds.truthy then
          match cmds with
          | .arr cs =>
            (jsFindAppend cs).map (fun found =>
              match found with
              | some action =>
                (action.getfOpt "appendContinuationItemsAction").getfOpt "continuationItems"
              | none => contents0)
          | _ => .error ([], .null)
        else .ok contents0
      else .ok contents0
    match contentsE with
    | .error a => .error a
    | .ok contents =>
      if !contents.truthy then .ok ([], .null)
      else
        match jsIterate contents with
        | none => .error ([], .null)
        | some sections => parseSections ([], .null) sections

/-- `parseSearchResults` from `parser.js`: the traversal with its
top-level `catch`, which falls through to returning the accumulated
records and token. -/
def parseSearchResults (response : Json) : PageAcc :=
  match parseTraverse response with
  | .ok acc => acc
  | .error acc => acc

example : parseSearchResults (.obj []) = ([], .null) := rfl

example : getText (.obj [("runs", .arr [.obj [("text", .str "a")], .obj [("text", .str "b")]])])
    = .ok (.str "ab") := rfl

example : getText .undefined = .ok (.str "") := rfl

/-! ## The bounded LRU cache (`src/lib/cache.js`) -/

/-- A document persisted in `localStorage` after `JSON.parse`: either a
cache entry `{value, timestamp}` or the key-index list persisted by
`_saveKeys` under the full key `namespace ++ "keys"`. -/
inductive Doc (α : Type) where
  | item (value : α) (timestamp : Int)
  | keysDoc (ks : List String)

/-- The persistent store: full string key to parsed document. -/
def Store (α : Type) : Type := String → Option (Doc α)

/-- The empty store. -/
def emptyStore {α : Type} : Store α := fun _ => none

/-- `localStorage.setItem`. -/
def storeSet {α : Type} (st : Store α) (k : String) (d : Doc α) : Store α :=
  fun a => if a = k then some d else st a

/-- `localStorage.removeItem`. -/
def storeRemove {α : Type} (st : Store α) (k : String) : Store α :=
  fun a => if a = k then none else st a

/-- The in-memory state of an `LRUCache` instance: configuration plus
the `this.keys` recency list (least-recent first). -/
structure LRUCache (α : Type) where
  ns : String
  maxAge : Int
  capacity : Nat
  keys : List String

/-- `_saveKeys(keys)`: persist the list under `namespace ++ "keys"` and
replace `this.keys`. -/
def LRUCache.saveKeys {α : Type} (c : LRUCache α) (st : Store α) (ks : List String) :
    LRUCache α × Store α :=
  ({ c with keys := ks }, storeSet st (c.ns ++ "keys") (.keysDoc ks))

/-- `_promoteKey(key)`: when present, move the key to the
most-recently-used end and save. -/
def LRUCache.promoteKey {α : Type} (c : LRUCache α) (st : Store α) (key : String) :
    LRUCache α × Store α :=
  if key ∈ c.keys then c.saveKeys st ((c.keys.erase key) ++ [key])
  else (c, st)

/-- `remove(key)`: delete the stored entry, filter the key out of the
index, save. -/
def LRUCache.remove {α : Type} (c : LRUCache α) (st : Store α) (key : String) :
    LRUCache α × Store α :=
  c.saveKeys (storeRemove st (c.ns ++ key)) (c.keys.filter (fun k => k != key))

/-- `get(key)`: a missing document is a miss; an entry older than
`maxAge` is removed and missed; a valid entry is promoted and
returned. When the document at the full key is the persisted key list
(only possible when `key = "keys"`), `JSON.parse` succeeds, the absent
timestamp makes the age test false (NaN), the key is promoted and the
absent `value` field (`undefined`) is returned — a miss for callers. -/
def LRUCache.get {α : Type} (c : LRUCache α) (st : Store α) (now : Int) (key : String) :
    Option α × LRUCache α × Store α :=
  match st (c.ns ++ key) with
  | none => (none, c, st)
  | some (.item v ts) =>
    if c.maxAge < now - ts then
      let r := c.remove st key
      (none, r.1, r.2)
    else
      let p := c.promoteKey st key
      (some v, p.1, p.2)
  | some (.keysDoc _) =>
    let p := c.promoteKey st key
    (none, p.1, p.2)

/-- The `while (this.keys.length > this.capacity)` eviction loop of
`set`: shift the least-recent key off the front and delete its stored
entry, until at or under capacity. -/
def evictLoop {α : Type} (ns : String) (capacity : Nat) :
    List String → Store α → List String × Store α
  | [], st => ([], st)
  | k :: rest, st =>
    if capacity < (k :: rest).length then
      evictLoop ns capacity rest (storeRemove st (ns ++ k))
    else (k :: rest, st)

/-- `set(key, value)`: splice out an existing occurrence, push the key
as most-recent, evict past capacity, save the index, then write the
entry `{value, timestamp: now}`. Note the entry write comes after the
eviction loop. -/
def LRUCache.set {α : Type} (c : LRUCache α) (st : Store α) (now : Int) (key : String)
    (value : α) : LRUCache α × Store α :=
  let ks1 := (if key ∈ c.keys then c.keys.erase key else c.keys) ++ [key]
  let ev := evictLoop c.ns c.capacity ks1 st
  let s1 := c.saveKeys ev.2 ev.1
  (s1.1, storeSet s1.2 (c.ns ++ key) (.item value now))

/-- `clear()`: delete every stored entry named in the index, then the
index document itself, and reset `this.keys`. -/
def LRUCache.clear {α : Type} (c : LRUCache α) (st : Store α) : LRUCache α × Store α :=
  let s1 := c.keys.foldl (fun s k => storeRemove s (c.ns ++ k)) st
  ({ c with keys := [] }, storeRemove s1 (c.ns ++ "keys"))

/-- One public cache operation. -/
inductive CacheOp (α : Type) where
  | get (now : Int) (key : String)
  | set (now : Int) (key : String) (value : α)
  | remove (key : String)
  | clear

/-- Run one operation on a cache-plus-store state. -/
def applyOp {α : Type} (s : LRUCache α × Store α) : CacheOp α → LRUCache α × Store α
  | .get now key =>
    let r := s.1.get s.2 now key
    (r.2.1, r.2.2)
  | .set now key v => s.1.set s.2 now key v
  | .remove key => s.1.remove s.2 key
  | .clear => s.1.clear s.2

/-- Run a sequence of operations. -/
def runOps {α : Type} (s : LRUCache α × Store α) (ops : List (CacheOp α)) :
    LRUCache α × Store α :=
  ops.foldl applyOp s

/-- Whether an operation's key avoids the reserved suffix `"keys"`,
under which the cache persists its own index document. -/
def CacheOp.avoidsIndexKey {α : Type} : CacheOp α → Bool
  | .get _ k => k != "keys"
  | .set _ k _ => k != "keys"
  | .remove k => k != "keys"
  | .clear => true

/-- The index/store consistency invariant of the spec: every key in
the index has a stored entry, and every stored entry sits at the full
key of some index key. -/
def CacheInv {α : Type} (c : LRUCache α) (st : Store α) : Prop :=
  (∀ k ∈ c.keys, ∃ v ts, st (c.ns ++ k) = some (Doc.item v ts)) ∧
  (∀ a v ts, st a = some (Doc.item v ts) → ∃ k ∈ c.keys, a = c.ns ++ k)

example : ((LRUCache.set ⟨"t_", 3600000, 2, ["a"]⟩
    (storeSet emptyStore ("t_" ++ "a") (.item (1:Nat) 0)) 5 "b" 2).1).keys = ["a", "b"] := rfl

example : ((LRUCache.set ⟨"t_", 3600000, 1, ["a"]⟩
    (storeSet emptyStore ("t_" ++ "a") (.item (1:Nat) 0)) 5 "b" 2).1).keys = ["b"] := rfl

example : ((LRUCache.set ⟨"t_", 3600000, 1, ["a"]⟩
    (storeSet emptyStore ("t_" ++ "a") (.item (1:Nat) 0)) 5 "b" 2).2) ("t_" ++ "a") = none := rfl

/-! ## The two `YouTubeClient.search` variants -/

/-- The transport as an oracle: the result of the n-th `post` issued
by one search call (request 0 is the initial search, request n ≥ 1 the
n-th continuation fetch). -/
def TransportOracle : Type := Nat → Except String Json

/-- The `maxAttempts = 5` safety break of the paginating client. -/
def maxAttempts : Nat := 5

/-- The type filter `results.filter((item) => item.type === type)`,
applied when the requested type is not `"all"`. -/
def filterByType (rtype : String) (rs : List Record) : List Record :=
  if rtype != "all" then rs.filter (fun r => r.type == rtype) else rs

/-- The continuation fetch loop of the paginating `search` (part_002):
while the accumulated count is under the limit, a truthy token remains
and fewer than `maxAttempts` continuation fetches were made, fetch,
parse, filter by type, drop records whose id is already present
(`Set.has` on the accumulated ids), append, and adopt the new token.
The loop is driven structurally by `fuel`, invoked with
`fuel = maxAttempts` and `attempt = 0`; the fuel never runs out before
the `attempt < maxAttempts` test fails, so the fuel-exhausted branch
coincides with the loop's normal exit. -/
def fetchLoop (oracle : TransportOracle) (limit : Nat) (rtype : String) :
    Nat → Nat → List Record → Json → Except String (List Record)
  | 0, _, combined, _ => .ok combined
  | fuel + 1, attempt, combined, tok =>
    if decide (combined.length < limit) && tok.truthy && decide (attempt < maxAttempts) then
      match oracle (attempt + 1) with
      | .error e => .error e
      | .ok raw =>
        let parsed := parseSearchResults raw
        let fresh := (filterByType rtype parsed.1).filter
          (fun r => !(combined.any (fun c => jsEq c.id r.id)))
        fetchLoop oracle limit rtype fuel (attempt + 1) (combined ++ fresh) parsed.2
    else .ok combined

/-- The network-and-parse body of the paginating `search` after a
cache miss: initial request, first-page type filter, continuation
loop, then `slice(0, limit)`. A transport failure is rethrown. -/
def searchCore (oracle : TransportOracle) (limit : Nat) (rtype : String) :
    Except String (List Record) :=
  match oracle 0 with
  | .error e => .error e
  | .ok raw =>
    let parsed := parseSearchResults raw
    match fetchLoop oracle limit rtype maxAttempts 0 (filterByType rtype parsed.1) parsed.2 with
    | .error e => .error e
    | .ok combined => .ok (combined.take limit)

/-- The cache key `query + '_' + limit + '_' + type`. -/
def cacheKeyOf (query : String) (limit : Nat) (rtype : String) : String :=
  query ++ "_" ++ toString limit ++ "_" ++ rtype

/-- An enabled cache is an `LRUCache` instance plus the backing store;
`useCache: false` is `none`. The cached values are result lists. -/
def CacheState : Type := LRUCache (List Record) × Store (List Record)

/-- The paginating `YouTubeClient.search` (part_002): reject an empty
query, try the cache (any non-null cached value — a JavaScript array,
always truthy — is returned), otherwise run the search core and store
a successful result under the cache key. The returned pair is the
call's outcome and the cache state after the call. -/
def clientSearch (cache : Option CacheState) (now : Int) (oracle : TransportOracle)
    (query : String) (limit : Nat) (rtype : String) :
    Except String (List Record) × Option CacheState :=
  if query == "" then (.error "Query is required", cache)
  else
    match cache with
    | none =>
      (searchCore oracle limit rtype, none)
    | some (c, st) =>
      let g := c.get st now (cacheKeyOf query limit rtype)
      match g.1 with
      | some cached => (.ok cached, some (g.2.1, g.2.2))
      | none =>
        match searchCore oracle limit rtype with
        | .error e => (.error e, some (g.2.1, g.2.2))
        | .ok rs =>
          (.ok rs, some ((g.2.1).set g.2.2 now (cacheKeyOf query limit rtype) rs))

/-- The dynamic value flowing through the non-paginating client's
result pipeline: `parseSearchResults` returns a page object, while
the subsequent `.filter`/`.slice` calls require an array. -/
inductive DynVal where
  | pageResult (pr : PageAcc)
  | records (rs : List Record)

/-- `results.filter((item) => item.type === type)`: a TypeError unless
the receiver is an array. -/
def dynFilterType (v : DynVal) (rtype : String) : Except String DynVal :=
  match v with
  | .pageResult _ => .error "TypeError: results.filter is not a function"
  | .records rs => .ok (.records (rs.filter (fun r => r.type == rtype)))

/-- `results.slice(0, limit)`: a TypeError unless the receiver is an
array. -/
def dynSlice (v : DynVal) (limit : Nat) : Except String (List Record) :=
  match v with
  | .pageResult _ => .error "TypeError: results.slice is not a function"
  | .records rs => .ok (rs.take limit)

/-- The non-paginating `YouTubeClient.search` variant (part_001,
default limit 5): on a cache miss it assigns the whole
`parseSearchResults` page object to `results` and then applies the
type filter and `slice(0, limit)` to it; the thrown TypeError is
rethrown by the catch block, and the cache is never written. -/
def clientSearchV1 (cache : Option CacheState) (now : Int) (oracle : TransportOracle)
    (query : String) (limit : Nat) (rtype : String) :
    Except String (List Record) × Option CacheState :=
  if query == "" then (.error "Query is required", cache)
  else
    let afterGet : Option CacheState × Option (List Record) :=
      match cache with
      | none => (none, none)
      | some (c, st) =>
        let g := c.get st now (cacheKeyOf query limit rtype)
        (some (g.2.1, g.2.2), g.1)
    match afterGet.2 with
    | some cached => (.ok cached, afterGet.1)
    | none =>
      match oracle 0 with
      | .error e => (.error e, afterGet.1)
      | .ok raw =>
        let results : DynVal := .pageResult (parseSearchResults raw)
        let outcome : Except String (List Record) := do
          let r1 ← if rtype != "all" then dynFilterType results rtype else pure results
          dynSlice r1 limit
        match outcome with
        | .error e => (.error e, afterGet.1)
        | .ok rs =>
          let cache2 : Option CacheState :=
            match afterGet.1 with
            | none => none
            | some (c, st) => some (c.set st now (cacheKeyOf query limit rtype) rs)
          (.ok rs, cache2)

example :
    (clientSearchV1 none 0 (fun _ => .ok (.obj [])) "q" 5 "video").1
      = .error "TypeError: results.filter is not a function" := rfl

example :
    (clientSearchV1 none 0 (fun _ => .ok (.obj [])) "q" 5 "all").1
      = .error "TypeError: results.slice is not a function" := rfl

example :
    (clientSearch none 0 (fun _ => .ok (.obj [])) "q" 5 "video").1 = .ok [] := rfl

/-! ## Shared lemmas -/

/-- Evaluation of `storeSet` at the written key. -/
lemma storeSet_self {α : Type} (st : Store α) (k : String) (d : Doc α) :
    storeSet st k d k = some d := by
  simp [storeSet]

/-- Evaluation of `storeSet` away from the written key. -/
lemma storeSet_other {α : Type} (st : Store α) (k : String) (d : Doc α) {a : String}
    (h : a ≠ k) : storeSet st k d a = st a := by
  simp [storeSet, h]

/-- Evaluation of `storeRemove` at the removed key. -/
lemma storeRemove_self {α : Type} (st : Store α) (k : String) :
    storeRemove st k k = none := by
  simp [storeRemove]

/-- Evaluation of `storeRemove` away from the removed key. -/
lemma storeRemove_other {α : Type} (st : Store α) (k : String) {a : String}
    (h : a ≠ k) : storeRemove st k a = st a := by
  simp [storeRemove, h]

/-- Appending to a fixed namespace prefix is injective. -/
lemma ns_append_inj {s a b : String} (h : s ++ a = s ++ b) : a = b := by
  have h2 : (s ++ a).data = (s ++ b).data := congrArg String.data h
  rw [String.data_append, String.data_append] at h2
  have h3 := List.append_cancel_left h2
  cases a
  cases b
  exact congrArg String.mk h3

/-! ## C3: empty query fails before any transport request -/

/-- C3. For an empty query, both `search` variants fail with the
`InvalidInput` error `Query is required` and the result does not
depend on the transport oracle at all (no request is issued) nor on
the cache, which is returned unchanged — for every cache state, time
and options value. An absent query is the same falsy test in the
source (`if (!query)`). -/
theorem searchEmptyQueryFails (cache : Option CacheState) (now : Int)
    (oracle : TransportOracle) (limit : Nat) (rtype : String) :
    clientSearch cache now oracle "" limit rtype = (.error "Query is required", cache)
  ∧ clientSearchV1 cache now oracle "" limit rtype = (.error "Query is required", cache) :=
  ⟨rfl, rfl⟩

/-! ## C6: the parser never propagates a traversal failure -/

/-- C6. `parseSearchResults` never propagates a traversal failure:
when the traversal throws, the caller receives exactly the records
accumulated and the token found before the failure, and when it does
not throw, its accumulated result. -/
theorem parseNeverPropagates (response : Json) :
    (∀ acc, parseTraverse response = .error acc → parseSearchResults response = acc)
  ∧ (∀ acc, parseTraverse response = .ok acc → parseSearchResults response = acc) := by
  constructor
  · intro acc h
    simp [parseSearchResults, h]
  · intro acc h
    simp [parseSearchResults, h]

/-- A response whose third section is `null`: traversing it throws on
the plain read `section.itemSectionRenderer` after one video record
and a continuation token were already accumulated. -/
def c6resp : Json :=
  .obj [("contents", .obj [("twoColumnSearchResultsRenderer", .obj [("primaryContents",
    .obj [("sectionListRenderer", .obj [("contents", .arr [
      .obj [("itemSectionRenderer", .obj [("contents", .arr [
        .obj [("videoRenderer", .obj [("videoId", .str "v1")])]])])],
      .obj [("continuationItemRenderer", .obj [("continuationEndpoint",
        .obj [("continuationCommand", .obj [("token", .str "T")])])])],
      .null])])])])])]

/-- The record accumulated from `c6resp` before the failure. -/
def c6rec : Record :=
  Record.video (.str "v1") "https://www.youtube.com/watch?v=v1" (.str "") (.arr []) (.str "")
    (.str "") (.str "") (.str "") (.str "") (.str "") (.arr [])

/-- Witness for C6: a traversal that genuinely throws midway returns
the one record and the token accumulated before the failing section. -/
theorem parseNeverPropagates_w :
    parseTraverse c6resp = .error ([c6rec], .str "T")
  ∧ parseSearchResults c6resp = ([c6rec], .str "T") :=
  ⟨rfl, (parseNeverPropagates c6resp).1 _ rfl⟩

/-! ## C4: capacity-0 `set` -/

/-- C4 (amended). With capacity 0 every `set` empties the index, but
because the entry write comes after the eviction loop, the store
retains an orphaned entry `{value, timestamp}` under the key: the
operation is a delete-then-write, not a net no-op. -/
theorem setCapacityZero {α : Type} (c : LRUCache α) (st : Store α) (now : Int)
    (key : String) (value : α) (hcap : c.capacity = 0) :
    (c.set st now key value).1.keys = []
  ∧ (c.set st now key value).2 (c.ns ++ key) = some (.item value now) := by
  have hev : ∀ (ks : List String) (s : Store α), (evictLoop c.ns 0 ks s).1 = [] := by
    intro ks
    induction ks with
    | nil => intro s; rfl
    | cons k rest ih =>
      intro s
      simp only [evictLoop]
      rw [if_pos (by simp [Nat.succ_pos])]
      exact ih _
  constructor
  · simp only [LRUCache.set, LRUCache.saveKeys, hcap]
    exact hev _ _
  · simp only [LRUCache.set, LRUCache.saveKeys]
    exact storeSet_self _ _ _

/-- Counterexample to C4 as stated: after `set` on a capacity-0 cache
the store does hold an entry for the key (the claim says it holds
none). -/
theorem capacityZeroSetLeavesEntry :
    ((⟨"yt_search_", 3600000, 0, []⟩ : LRUCache Nat).set emptyStore 0 "k" 42).2
      ("yt_search_" ++ "k") = some (.item 42 0)
  ∧ ((⟨"yt_search_", 3600000, 0, []⟩ : LRUCache Nat).set emptyStore 0 "k" 42).1.keys = [] :=
  ⟨rfl, rfl⟩

/-- Witness for C4 (amended) at a concrete capacity-0 cache. -/
theorem setCapacityZero_w :
    ((⟨"yt_search_", 3600000, 0, []⟩ : LRUCache Nat).set emptyStore 5 "q_5_video" 42).1.keys = []
  ∧ ((⟨"yt_search_", 3600000, 0, []⟩ : LRUCache Nat).set emptyStore 5 "q_5_video" 42).2
      ("yt_search_" ++ "q_5_video") = some (.item 42 5) :=
  setCapacityZero _ _ _ _ _ rfl

/-! ## C9: discriminator precedence in item classification -/

/-- Every successful, non-null result of `parseVideoRenderer` is a
video record. -/
lemma parseVideoRenderer_type {item : Json} {r : Record}
    (h : parseVideoRenderer item = .ok (some r)) : r.type = "video" := by
  unfold parseVideoRenderer at h
  split at h
  · exact absurd h (by simp)
  · split at h
    · exact absurd h (by simp)
    · simp only [bind, Except.bind, pure] at h
      repeat' first
        | (simp only [Except.ok.injEq, Option.some.injEq] at h; subst h; rfl)
        | (exact absurd h (by simp))
        | split at h

/-- C9 (amended). The discriminators are tested by truthiness in the
fixed order video, channel, playlist: whenever the `videoRenderer`
field reads as a truthy value, the item is handed to the video parser
(regardless of the other discriminators), and any record it produces
is a video. -/
theorem classifyVideoFirst (item v : Json) (hv : item.getf "videoRenderer" = .ok v)
    (ht : v.truthy = true) :
    classifyItem item = parseVideoRenderer item
  ∧ (∀ r, classifyItem item = .ok (some r) → r.type = "video") := by
  have h1 : classifyItem item = parseVideoRenderer item := by
    simp [classifyItem, hv, ht]
  refine ⟨h1, fun r hr => ?_⟩
  rw [h1] at hr
  exact parseVideoRenderer_type hr

/-- An item carrying both discriminator fields, the video one with a
falsy (`null`) value. -/
def bothDiscriminatorsItem : Json :=
  .obj [("videoRenderer", .null), ("channelRenderer", .obj [("channelId", .str "c1")])]

/-- Counterexample to C9 as stated: an item carrying both the
video-discriminator field and the channel-discriminator field is
classified as a channel when the video field's value is falsy — the
dispatch tests truthiness, not presence. -/
theorem bothDiscriminatorsParseAsChannel :
    classifyItem bothDiscriminatorsItem
      = .ok (some (Record.channel (.str "c1") (.str "") (.arr []) (.str "") (.str "") (.str "")))
  ∧ (Record.channel (.str "c1") (.str "") (.arr []) (.str "") (.str "") (.str "")).type
      = "channel"
  ∧ "channel" ≠ "video" :=
  ⟨rfl, rfl, by decide⟩

/-- Witness for C9 (amended): an item carrying both discriminators
with truthy values parses as a video. -/
theorem classifyVideoFirst_w :
    classifyItem (.obj [("videoRenderer", .obj [("videoId", .str "v9")]),
        ("channelRenderer", .obj [("channelId", .str "c9")])])
      = parseVideoRenderer (.obj [("videoRenderer", .obj [("videoId", .str "v9")]),
        ("channelRenderer", .obj [("channelId", .str "c9")])])
  ∧ ∀ r, classifyItem (.obj [("videoRenderer", .obj [("videoId", .str "v9")]),
        ("channelRenderer", .obj [("channelId", .str "c9")])]) = .ok (some r) →
      r.type = "video" :=
  classifyVideoFirst _ _ rfl rfl

/-! ## C7: the text-extraction policy -/

/-- Binding a successful `Except` computation. -/
lemma bind_ok_eq {e a b : Type} (x : a) (f : a → Except e b) :
    ((Except.ok x : Except e a) >>= f) = f x := rfl

/-- Binding a failed `Except` computation. -/
lemma bind_err_eq {e a b : Type} (x : e) (f : a → Except e b) :
    ((Except.error x : Except e a) >>= f) = .error x := rfl

/-- Objects are truthy. -/
lemma truthy_obj (fs : List (String × Json)) : (Json.obj fs).truthy = true := rfl

/-- Arrays are truthy. -/
lemma truthy_arr (xs : List Json) : (Json.arr xs).truthy = true := rfl

/-- The undefined value is falsy. -/
lemma truthy_undef : Json.undefined.truthy = false := rfl

/-- Run texts read by the map when every run's `text` field is a
string. -/
lemma mapTexts_of_forall2 {xs : List Json} {ts : List String}
    (h : List.Forall₂ (fun r s => Json.getf r "text" = .ok (.str s)) xs ts) :
    mapTexts xs = .ok (ts.map Json.str) := by
  induction h with
  | nil => rfl
  | cons h1 _ ih => simp [mapTexts, h1, ih, bind_ok_eq]

/-- Joining a list of strings with the empty separator. -/
lemma jsJoinEmpty_strs (ts : List String) : jsJoinEmpty (ts.map Json.str) = String.join ts := by
  simp only [jsJoinEmpty, List.map_map]
  congr 1
  induction ts with
  | nil => rfl
  | cons t rest ih => simp [ih, Json.toJs]

/-- C7 (amended). The extraction policy of `getText`: a truthy
pre-rendered `simpleText` value is returned and takes precedence over
run extraction; with `simpleText` absent and a run array whose texts
are strings, the texts are concatenated in order with no separator;
an absent node yields the empty string. (A present but falsy
`simpleText` — such as the empty string — is skipped, see the
counterexample.) -/
theorem getTextPolicy :
    (∀ fields v, jlookup fields "simpleText" = some v → v.truthy = true →
        getText (.obj fields) = .ok v)
  ∧ (∀ fields xs ts, jlookup fields "simpleText" = none →
        jlookup fields "runs" = some (.arr xs) →
        List.Forall₂ (fun r s => Json.getf r "text" = .ok (.str s)) xs ts →
        getText (.obj fields) = .ok (.str (String.join ts)))
  ∧ getText .undefined = .ok (.str "") := by
  refine ⟨fun fields v hl ht => ?_, fun fields xs ts hs hr hf => ?_, rfl⟩
  · simp [getText, Json.getfOpt, truthy_obj, hl, ht]
  · simp [getText, Json.getfOpt, truthy_obj, truthy_undef, truthy_arr, hs, hr,
      mapTexts_of_forall2 hf, bind_ok_eq, jsJoinEmpty_strs]

/-- Counterexample to C7 as stated: a node on which the pre-rendered
field is present (with the empty string as value) does not return that
value; the truthiness test skips it and run extraction wins. -/
theorem presentEmptySimpleTextSkipped :
    getText (.obj [("simpleText", .str ""), ("runs", .arr [.obj [("text", .str "hi")]])])
      = .ok (.str "hi")
  ∧ Json.str "hi" ≠ Json.str "" :=
  ⟨rfl, fun h => by injection h with h2; exact absurd h2 (by decide)⟩

/-- Witness for C7 (amended) at concrete nodes. -/
theorem getTextPolicy_w :
    getText (.obj [("simpleText", .str "hello"), ("runs", .arr [.obj [("text", .str "x")]])])
      = .ok (.str "hello")
  ∧ getText (.obj [("runs", .arr [.obj [("text", .str "a")], .obj [("text", .str "b")]])])
      = .ok (.str "ab") :=
  ⟨getTextPolicy.1 _ _ rfl rfl,
   getTextPolicy.2.1 _ _ ["a", "b"] rfl rfl
     (.cons rfl (.cons rfl .nil))⟩

/-! ## C10: the non-paginating variant always throws after a fetch -/

/-- The cache lookup for a key comes back empty (or caching is
disabled). -/
def cacheMisses (cache : Option CacheState) (now : Int) (key : String) : Prop :=
  match cache with
  | none => True
  | some (c, st) => (c.get st now key).1 = none

/-- C10. In the non-paginating client variant, for every non-empty
query that misses the cache and every successful transport response,
the search never returns a result list: the type filter (or, for
`type = "all"`, the limit truncation) is applied to the parser's page
object, which is not an array, and the resulting TypeError propagates
to the caller. -/
theorem vOneSearchTypeError (cache : Option CacheState) (now : Int)
    (oracle : TransportOracle) (query : String) (limit : Nat) (rtype : String) (raw : Json)
    (hq : query ≠ "") (hmiss : cacheMisses cache now (cacheKeyOf query limit rtype))
    (hok : oracle 0 = .ok raw) :
    (clientSearchV1 cache now oracle query limit rtype).1
      = .error (if rtype == "all" then "TypeError: results.slice is not a function"
                else "TypeError: results.filter is not a function") := by
  have hq2 : (query == "") = false := by
    simp [hq]
  cases cache with
  | none =>
    simp only [clientSearchV1, hq2, Bool.false_eq_true, if_false, hok]
    by_cases hall : (rtype == "all") = true
    · rw [beq_iff_eq] at hall
      simp [hall, dynSlice]
    · have hne : rtype ≠ "all" := by
        intro hcontra
        rw [hcontra] at hall
        exact hall rfl
      simp [hne, dynFilterType, bind_err_eq]
  | some cs =>
    obtain ⟨c, st⟩ := cs
    simp only [cacheMisses] at hmiss
    simp only [clientSearchV1, hq2, Bool.false_eq_true, if_false, hmiss, hok]
    by_cases hall : (rtype == "all") = true
    · rw [beq_iff_eq] at hall
      simp [hall, dynSlice]
    · have hne : rtype ≠ "all" := by
        intro hcontra
        rw [hcontra] at hall
        exact hall rfl
      simp [hne, dynFilterType, bind_err_eq]

/-- Witness for C10 at concrete inputs (no cache, one successful empty
response, default type `video`). -/
theorem vOneSearchTypeError_w :
    (clientSearchV1 none 0 (fun _ => .ok (.obj [])) "q" 5 "video").1
      = .error (if "video" == "all" then "TypeError: results.slice is not a function"
                else "TypeError: results.filter is not a function") :=
  vOneSearchTypeError none 0 (fun _ => .ok (.obj [])) "q" 5 "video" (.obj [])
    (by decide) trivial rfl

/-! ## C1: limit bound and type filter of the paginating search -/

/-- Membership in the filtered list forces the requested type. -/
lemma filterByType_mem {rtype : String} {rs : List Record} {r : Record}
    (h : r ∈ filterByType rtype rs) (hne : rtype ≠ "all") : r.type = rtype := by
  have hb : (rtype != "all") = true := by simp [hne]
  unfold filterByType at h
  rw [hb, if_pos rfl] at h
  have := List.of_mem_filter h
  simpa using this

/-- The filtered list is a sublist of the input. -/
lemma filterByType_sublist (rtype : String) (rs : List Record) :
    List.Sublist (filterByType rtype rs) rs := by
  unfold filterByType
  split
  · exact List.filter_sublist rs
  · exact List.Sublist.refl rs

/-- Records accumulated by the fetch loop keep the requested type. -/
lemma fetchLoop_types (oracle : TransportOracle) (limit : Nat) (rtype : String) :
    ∀ (fuel attempt : Nat) (combined : List Record) (tok : Json) (out : List Record),
      fetchLoop oracle limit rtype fuel attempt combined tok = .ok out →
      (∀ r ∈ combined, rtype ≠ "all" → r.type = rtype) →
      ∀ r ∈ out, rtype ≠ "all" → r.type = rtype := by
  intro fuel
  induction fuel with
  | zero =>
    intro attempt combined tok out h hc
    simp only [fetchLoop, Except.ok.injEq] at h
    exact h ▸ hc
  | succ n ih =>
    intro attempt combined tok out h hc
    rw [fetchLoop] at h
    split at h
    · split at h
      · exact absurd h (by simp)
      · refine ih _ _ _ _ h ?_
        intro r hr hne
        rcases List.mem_append.mp hr with hr1 | hr2
        · exact hc r hr1 hne
        · exact filterByType_mem (List.mem_of_mem_filter hr2) hne
    · simp only [Except.ok.injEq] at h
      exact h ▸ hc

/-- C1. For every query, type, limit and transport behaviour, a
successful paginating `search` returns at most `limit` records, each
of the requested type unless the requested type is `"all"` (shown for
the cache-disabled client configuration; the claim quantifies over
transport responses, which only drive this path). -/
theorem searchLimitAndTypeFilter (now : Int) (oracle : TransportOracle) (query : String)
    (limit : Nat) (rtype : String) (rs : List Record)
    (h : (clientSearch none now oracle query limit rtype).1 = .ok rs) :
    rs.length ≤ limit ∧ ∀ r ∈ rs, rtype ≠ "all" → r.type = rtype := by
  unfold clientSearch at h
  split at h
  · exact absurd h (by simp)
  · simp only at h
    unfold searchCore at h
    split at h
    · exact absurd h (by simp)
    · dsimp only at h
      split at h
      · exact absurd h (by simp)
      · rename_i combined heq
        simp only [Except.ok.injEq] at h
        subst h
        constructor
        · simpa using List.length_take_le limit combined
        · intro r hr hne
          have hrc : r ∈ combined := (List.take_sublist _ _).subset hr
          refine fetchLoop_types oracle limit rtype maxAttempts 0 _ _ combined heq ?_ r hrc hne
          intro r2 hr2 hne2
          exact filterByType_mem hr2 hne2

/-- Witness for C1: a concrete run over a one-video response. -/
theorem searchLimitAndTypeFilter_w :
    ((clientSearch none 0 (fun _ => .ok (.obj [])) "q" 5 "video").1 = .ok []) ∧
    (([] : List Record).length ≤ 5 ∧ ∀ r ∈ ([] : List Record), "video" ≠ "all" → r.type = "video") :=
  ⟨rfl, searchLimitAndTypeFilter 0 (fun _ => .ok (.obj [])) "q" 5 "video" [] rfl⟩

/-! ## C2: deduplication across continuation pages -/

/-- No two records of the list have ids the dedup test would equate. -/
def PairwiseFreshIds (rs : List Record) : Prop :=
  List.Pairwise (fun a b => jsEq a.id b.id = false) rs

/-- A record surviving the dedup filter has an id equal to none of the
accumulated ones. -/
lemma dedup_filter_fresh {combined nf : List Record} {r : Record}
    (h : r ∈ nf.filter (fun r => !(combined.any (fun c => jsEq c.id r.id)))) :
    ∀ c ∈ combined, jsEq c.id r.id = false := by
  intro c hc
  have hb := List.of_mem_filter h
  rw [Bool.not_eq_true'] at hb
  by_contra hcon
  rw [Bool.not_eq_false] at hcon
  have : combined.any (fun c => jsEq c.id r.id) = true :=
    List.any_eq_true.mpr ⟨c, hc, hcon⟩
  rw [this] at hb
  exact Bool.true_eq_false.mp hb

/-- The fetch loop only ever appends records, and every appended
record's id differs from every id already accumulated when the loop
started: the first occurrence keeps its position and later repeats
are dropped. -/
lemma fetchLoop_extends (oracle : TransportOracle) (limit : Nat) (rtype : String) :
    ∀ (fuel attempt : Nat) (combined : List Record) (tok : Json) (out : List Record),
      fetchLoop oracle limit rtype fuel attempt combined tok = .ok out →
      ∃ suffix, out = combined ++ suffix ∧
        ∀ r ∈ suffix, ∀ c ∈ combined, jsEq c.id r.id = false := by
  intro fuel
  induction fuel with
  | zero =>
    intro attempt combined tok out h
    simp only [fetchLoop, Except.ok.injEq] at h
    exact ⟨[], by simp [h], by simp⟩
  | succ n ih =>
    intro attempt combined tok out h
    rw [fetchLoop] at h
    split at h
    · split at h
      · exact absurd h (by simp)
      · obtain ⟨suffix, hout, hfresh⟩ := ih _ _ _ _ h
        refine ⟨_ ++ suffix, by simpa [List.append_assoc] using hout, ?_⟩
        intro r hr c hc
        rcases List.mem_append.mp hr with hr1 | hr2
        · exact dedup_filter_fresh hr1 c hc
        · exact hfresh r hr2 c (List.mem_append.mpr (Or.inl hc))
    · simp only [Except.ok.injEq] at h
      exact ⟨[], by simp [h], by simp⟩

/-- Under internally duplicate-free pages, the fetch loop preserves
pairwise-distinct ids. -/
lemma fetchLoop_pairwise (oracle : TransportOracle) (limit : Nat) (rtype : String)
    (hpages : ∀ n raw, oracle n = .ok raw → PairwiseFreshIds (parseSearchResults raw).1) :
    ∀ (fuel attempt : Nat) (combined : List Record) (tok : Json) (out : List Record),
      fetchLoop oracle limit rtype fuel attempt combined tok = .ok out →
      PairwiseFreshIds combined → PairwiseFreshIds out := by
  intro fuel
  induction fuel with
  | zero =>
    intro attempt combined tok out h hc
    simp only [fetchLoop, Except.ok.injEq] at h
    exact h ▸ hc
  | succ n ih =>
    intro attempt combined tok out h hc
    rw [fetchLoop] at h
    split at h
    · split at h
      · exact absurd h (by simp)
      · rename_i raw hraw
        refine ih _ _ _ _ h ?_
        rw [PairwiseFreshIds, List.pairwise_append]
        refine ⟨hc, ?_, ?_⟩
        · have hpage := hpages _ _ hraw
          have hsub : List.Sublist
              (((filterByType rtype (parseSearchResults raw).1)).filter
                (fun r => !(combined.any (fun c => jsEq c.id r.id))))
              (parseSearchResults raw).1 :=
            List.Sublist.trans (List.filter_sublist _) (filterByType_sublist _ _)
          exact hpage.sublist hsub
        · intro a ha b hb
          exact dedup_filter_fresh hb a ha
    · simp only [Except.ok.injEq] at h
      exact h ▸ hc

/-- C2 (amended). Provided no single parsed page repeats an id within
itself, a successful paginating search returns records with pairwise
distinct ids — a repeated id appears exactly once — and every loop
step appends only records whose ids differ from everything already
accumulated, leaving earlier records (and hence the first occurrence)
at their positions. -/
theorem dedupFirstOccurrence (now : Int) (oracle : TransportOracle) (query : String)
    (limit : Nat) (rtype : String)
    (hpages : ∀ n raw, oracle n = .ok raw → PairwiseFreshIds (parseSearchResults raw).1) :
    (∀ rs, (clientSearch none now oracle query limit rtype).1 = .ok rs → PairwiseFreshIds rs)
  ∧ (∀ fuel attempt combined tok out,
      fetchLoop oracle limit rtype fuel attempt combined tok = .ok out →
      ∃ suffix, out = combined ++ suffix ∧
        ∀ r ∈ suffix, ∀ c ∈ combined, jsEq c.id r.id = false) := by
  constructor
  · intro rs h
    unfold clientSearch at h
    split at h
    · exact absurd h (by simp)
    · simp only at h
      unfold searchCore at h
      split at h
      · exact absurd h (by simp)
      · rename_i raw hraw
        dsimp only at h
        split at h
        · exact absurd h (by simp)
        · rename_i combined heq
          simp only [Except.ok.injEq] at h
          subst h
          have hfirst : PairwiseFreshIds (filterByType rtype (parseSearchResults raw).1) :=
            (hpages _ _ hraw).sublist (filterByType_sublist _ _)
          have hcomb := fetchLoop_pairwise oracle limit rtype hpages _ _ _ _ _ heq hfirst
          exact hcomb.sublist (List.take_sublist _ _)
  · exact fetchLoop_extends oracle limit rtype

/-- Witness for C2 (amended) at a concrete single-page run. -/
theorem dedupFirstOccurrence_w :
    (∀ rs, (clientSearch none 0 (fun _ => .ok (.obj [])) "q" 5 "video").1 = .ok rs →
      PairwiseFreshIds rs)
  ∧ (∀ fuel attempt combined tok out,
      fetchLoop (fun _ => .ok (.obj [])) 5 "video" fuel attempt combined tok = .ok out →
      ∃ suffix, out = combined ++ suffix ∧
        ∀ r ∈ suffix, ∀ c ∈ combined, jsEq c.id r.id = false) :=
  dedupFirstOccurrence 0 (fun _ => .ok (.obj [])) "q" 5 "video"
    (fun n raw h => by
      cases h
      exact List.Pairwise.nil)

/-- One video item with id `a`. -/
def dupVideoItem : Json :=
  .obj [("videoRenderer", .obj [("videoId", .str "a")])]

/-- An initial page carrying the id `a` twice plus a continuation
token. -/
def dupInitialResp : Json :=
  .obj [("contents", .obj [("twoColumnSearchResultsRenderer", .obj [("primaryContents",
    .obj [("sectionListRenderer", .obj [("contents", .arr [
      .obj [("itemSectionRenderer", .obj [("contents", .arr [dupVideoItem, dupVideoItem])])],
      .obj [("continuationItemRenderer", .obj [("continuationEndpoint",
        .obj [("continuationCommand", .obj [("token", .str "T")])])])]])])])])])]

/-- A continuation page repeating the id `a`, with no further token. -/
def dupContResp : Json :=
  .obj [("onResponseReceivedCommands", .arr [
    .obj [("appendContinuationItemsAction", .obj [("continuationItems", .arr [dupVideoItem])])]])]

/-- The transport serving the two pages above. -/
def dupOracle : TransportOracle :=
  fun n => if n == 0 then .ok dupInitialResp else .ok dupContResp

/-- The video record with id `a` parsed from `dupVideoItem`. -/
def dupRec : Record :=
  Record.video (.str "a") "https://www.youtube.com/watch?v=a" (.str "") (.arr []) (.str "")
    (.str "") (.str "") (.str "") (.str "") (.str "") (.arr [])

/-- Counterexample to C2 as stated: the run's continuation page yields
a record whose id `a` was already returned by the initial page, yet
the final sequence carries id `a` twice (the initial page contained it
twice and the dedup filter only inspects ids accumulated from earlier
pages). -/
theorem continuationRepeatAppearsTwice :
    (clientSearch none 0 dupOracle "q" 10 "all").1 = .ok [dupRec, dupRec]
  ∧ parseSearchResults dupContResp = ([dupRec], .null)
  ∧ jsEq dupRec.id dupRec.id = true :=
  ⟨rfl, rfl, rfl⟩

/-! ## Cache lemmas shared by the LRU and invariant claims -/

/-- The eviction loop drops exactly the over-capacity prefix and
removes each dropped key's stored entry. -/
lemma evictLoop_eq {α : Type} (ns : String) (cap : Nat) :
    ∀ (ks : List String) (st : Store α),
      evictLoop ns cap ks st
        = (ks.drop (ks.length - cap),
           (ks.take (ks.length - cap)).foldl (fun s k => storeRemove s (ns ++ k)) st) := by
  intro ks
  induction ks with
  | nil => intro st; simp [evictLoop]
  | cons k rest ih =>
    intro st
    rw [evictLoop]
    by_cases hlt : cap < (k :: rest).length
    · rw [if_pos hlt, ih]
      have harith : (k :: rest).length - cap = (rest.length - cap) + 1 := by
        simp only [List.length_cons] at hlt ⊢
        omega
      rw [harith]
      simp [List.drop_succ_cons, List.take_succ_cons]
    · rw [if_neg hlt]
      have harith : (k :: rest).length - cap = 0 := by
        simp only [List.length_cons] at hlt ⊢
        omega
      rw [harith]
      simp

/-- Evaluating a fold of entry removals. -/
lemma foldl_storeRemove_eval {α : Type} (ns : String) :
    ∀ (ks : List String) (st : Store α) (a : String),
      (ks.foldl (fun s k => storeRemove s (ns ++ k)) st) a
        = if a ∈ ks.map (fun k => ns ++ k) then none else st a := by
  intro ks
  induction ks with
  | nil => intro st a; simp
  | cons k rest ih =>
    intro st a
    rw [List.foldl_cons, ih]
    by_cases hak : a = ns ++ k
    · subst hak
      simp [storeRemove_self]
    · simp only [List.map_cons, List.mem_cons]
      rw [storeRemove_other _ _ hak]
      simp [hak]

/-- The last `n` elements of a list. -/
def lastN (n : Nat) (xs : List String) : List String :=
  xs.drop (xs.length - n)

/-- A list short enough is its own `lastN`. -/
lemma lastN_of_le {n : Nat} {xs : List String} (h : xs.length ≤ n) : lastN n xs = xs := by
  unfold lastN
  rw [Nat.sub_eq_zero_of_le h, List.drop_zero]

/-- `lastN` has length at most `n`. -/
lemma lastN_length_le (n : Nat) (xs : List String) : (lastN n xs).length ≤ n := by
  unfold lastN
  rw [List.length_drop]
  omega

/-- `lastN` is a suffix, hence a sublist. -/
lemma lastN_sublist (n : Nat) (xs : List String) : List.Sublist (lastN n xs) xs :=
  List.drop_sublist _ _

/-- Taking the last `n` twice across an append collapses. -/
lemma lastN_append_lastN (n : Nat) (xs ys : List String) :
    lastN n (lastN n xs ++ ys) = lastN n (xs ++ ys) := by
  rcases le_or_lt n xs.length with hle | hlt
  · unfold lastN
    rw [List.drop_append_eq_append_drop, List.drop_append_eq_append_drop, List.drop_drop]
    congr 1
    · congr 1
      simp only [List.length_append, List.length_drop]
      omega
    · congr 1
      simp only [List.length_append, List.length_drop]
      omega
  · rw [lastN_of_le (Nat.le_of_lt hlt)]

/-- Full characterization of `set`: the new index is the last
`capacity` keys of the spliced-and-pushed list, the entry is written
under the key (after the evictions), the index document is rewritten,
dropped keys' entries are deleted, and everything else is untouched. -/
lemma set_eval {α : Type} (c : LRUCache α) (st : Store α) (now : Int) (key : String)
    (value : α) :
    (c.set st now key value).1
        = { c with
            keys := lastN c.capacity ((if key ∈ c.keys then c.keys.erase key else c.keys) ++ [key]) }
  ∧ ∀ a, (c.set st now key value).2 a =
      (let ks1 := (if key ∈ c.keys then c.keys.erase key else c.keys) ++ [key]
       if a = c.ns ++ key then some (.item value now)
       else if a = c.ns ++ "keys" then some (.keysDoc (lastN c.capacity ks1))
       else if a ∈ (ks1.take (ks1.length - c.capacity)).map (fun k => c.ns ++ k) then none
       else st a) := by
  unfold LRUCache.set LRUCache.saveKeys
  dsimp only
  rw [evictLoop_eq]
  refine ⟨rfl, fun a => ?_⟩
  simp only
  by_cases h1 : a = c.ns ++ key
  · subst h1
    rw [if_pos rfl, storeSet_self]
  · rw [if_neg h1, storeSet_other _ _ _ h1]
    by_cases h2 : a = c.ns ++ "keys"
    · subst h2
      rw [if_pos rfl, storeSet_self]
      rfl
    · rw [if_neg h2, storeSet_other _ _ _ h2, foldl_storeRemove_eval]

/-- A namespaced address belongs to the mapped key list exactly when
the key does. -/
lemma mem_map_ns {ns k : String} {ks : List String} :
    (ns ++ k) ∈ ks.map (fun k2 => ns ++ k2) ↔ k ∈ ks := by
  constructor
  · intro h
    obtain ⟨d, hd, he⟩ := List.mem_map.mp h
    rwa [ns_append_inj he] at hd
  · intro h
    exact List.mem_map.mpr ⟨k, h, rfl⟩

/-- On a duplicate-free list, a key kept by `lastN` is not among the
dropped prefix. -/
lemma not_mem_take_of_mem_lastN {cap : Nat} {xs : List String} (hnd : xs.Nodup) {k : String}
    (h : k ∈ lastN cap xs) : k ∉ xs.take (xs.length - cap) := by
  intro hmem
  have hsplit := List.take_append_drop (xs.length - cap) xs
  rw [← hsplit, List.nodup_append] at hnd
  exact hnd.2.2 hmem h

/-- The key just pushed survives the eviction whenever the capacity is
at least one. -/
lemma last_mem_lastN {cap : Nat} (hcap : 1 ≤ cap) (xs : List String) (k : String) :
    k ∈ lastN cap (xs ++ [k]) := by
  unfold lastN
  rw [List.drop_append_eq_append_drop]
  refine List.mem_append_right _ ?_
  have hz : (xs ++ [k]).length - cap - xs.length = 0 := by
    simp only [List.length_append, List.length_cons, List.length_nil]
    omega
  rw [hz, List.drop_zero]
  exact List.mem_singleton_self k

/-- Characterization of a run of `set` operations over fresh, pairwise
distinct keys (none of them the reserved index name): the final index
is the last `capacity` keys of the concatenation, every kept key has
its entry with its value and timestamp, every key seen but not kept
has no entry, and every foreign address is untouched. -/
lemma insertRun_spec {α : Type} (cap : Nat) (val : String → α) (hcap : 1 ≤ cap) :
    ∀ (l : List String) (c : LRUCache α) (st : Store α),
      c.capacity = cap →
      (c.keys ++ l).Nodup →
      "keys" ∉ c.keys ++ l →
      c.keys.length ≤ cap →
      (∀ k ∈ c.keys, st (c.ns ++ k) = some (.item (val k) 0)) →
      (∀ k ∈ l, st (c.ns ++ k) = none) →
      (runOps (c, st) (l.map (fun k => CacheOp.set 0 k (val k)))).1
          = { c with keys := lastN cap (c.keys ++ l) }
      ∧ (∀ k ∈ lastN cap (c.keys ++ l),
          (runOps (c, st) (l.map (fun k => CacheOp.set 0 k (val k)))).2 (c.ns ++ k)
            = some (.item (val k) 0))
      ∧ (∀ k ∈ c.keys ++ l, k ∉ lastN cap (c.keys ++ l) →
          (runOps (c, st) (l.map (fun k => CacheOp.set 0 k (val k)))).2 (c.ns ++ k) = none)
      ∧ (∀ k2, k2 ∉ c.keys ++ l → k2 ≠ "keys" →
          (runOps (c, st) (l.map (fun k => CacheOp.set 0 k (val k)))).2 (c.ns ++ k2)
            = st (c.ns ++ k2)) := by
  intro l
  induction l with
  | nil =>
    intro c st hc hnd hkk hlen hentries _
    rw [List.append_nil] at hnd hkk ⊢
    rw [List.map_nil]
    have hlast : lastN cap c.keys = c.keys := lastN_of_le hlen
    refine ⟨?_, ?_, ?_, ?_⟩
    · rw [hlast]
      rfl
    · rw [hlast]
      exact hentries
    · rw [hlast]
      intro k hk hnk
      exact absurd hk hnk
    · intro k2 _ _
      rfl
  | cons k l' ih =>
    intro c st hc hnd hkk hlen hentries hfresh
    subst hc
    rw [List.map_cons]
    have hassoc : c.keys ++ k :: l' = (c.keys ++ [k]) ++ l' := by
      rw [List.append_assoc]
      rfl
    rw [hassoc] at hnd hkk
    have hnd1 : (c.keys ++ [k]).Nodup := hnd.sublist (List.sublist_append_left _ _)
    have hknotin : k ∉ c.keys := by
      intro hmem
      exact (List.nodup_append.mp hnd1).2.2 hmem (List.mem_singleton_self k)
    have hkne : k ≠ "keys" := by
      intro he
      exact hkk (he ▸ List.mem_append_left _ (List.mem_append_right _ (List.mem_singleton_self k)))
    have hkeysnotin1 : "keys" ∉ c.keys ++ [k] := fun hm => hkk (List.mem_append_left _ hm)
    have hdisj : (c.keys ++ [k]).Disjoint l' := (List.nodup_append.mp hnd).2.2
    -- the single set step
    have hset := set_eval c st 0 k (val k)
    rw [if_neg hknotin] at hset
    have hc1keys : (c.set st 0 k (val k)).1.keys = lastN c.capacity (c.keys ++ [k]) := by
      rw [hset.1]
    have hc1ns : (c.set st 0 k (val k)).1.ns = c.ns := by rw [hset.1]
    have hc1max : (c.set st 0 k (val k)).1.maxAge = c.maxAge := by rw [hset.1]
    have hc1cap : (c.set st 0 k (val k)).1.capacity = c.capacity := by rw [hset.1]
    have heval : ∀ a, (c.set st 0 k (val k)).2 a =
        (if a = c.ns ++ k then some (.item (val k) 0)
         else if a = c.ns ++ "keys" then
           some (.keysDoc (lastN c.capacity (c.keys ++ [k])))
         else if a ∈ ((c.keys ++ [k]).take ((c.keys ++ [k]).length - c.capacity)).map
             (fun k2 => c.ns ++ k2) then none
         else st a) := by
      intro a
      rw [hset.2 a]
    have hkept_sub : ∀ k2 ∈ lastN c.capacity (c.keys ++ [k]), k2 ∈ c.keys ++ [k] :=
      fun k2 h => (lastN_sublist _ _).subset h
    have hkmem : k ∈ lastN c.capacity (c.keys ++ [k]) := last_mem_lastN hcap _ _
    -- preconditions of the induction hypothesis for the post-step state
    have hentries1 : ∀ k2 ∈ (c.set st 0 k (val k)).1.keys,
        (c.set st 0 k (val k)).2 ((c.set st 0 k (val k)).1.ns ++ k2)
          = some (.item (val k2) 0) := by
      intro k2 hk2
      rw [hc1keys] at hk2
      rw [hc1ns, heval]
      by_cases he : k2 = k
      · subst he
        rw [if_pos rfl]
      · rw [if_neg (fun hx => he (ns_append_inj hx))]
        have hk2ne : k2 ≠ "keys" := by
          intro hx
          exact hkeysnotin1 (hx ▸ hkept_sub _ hk2)
        rw [if_neg (fun hx => hk2ne (ns_append_inj hx))]
        have hnottake := not_mem_take_of_mem_lastN hnd1 hk2
        rw [if_neg (fun hx => hnottake (mem_map_ns.mp hx))]
        have hk2keys : k2 ∈ c.keys := by
          rcases List.mem_append.mp (hkept_sub _ hk2) with h1 | h1
          · exact h1
          · exact absurd (List.mem_singleton.mp h1) he
        exact hentries _ hk2keys
    have hfresh1 : ∀ k3 ∈ l',
        (c.set st 0 k (val k)).2 ((c.set st 0 k (val k)).1.ns ++ k3) = none := by
      intro k3 hk3
      have hk3ne : k3 ≠ k := by
        intro hx
        exact hdisj (List.mem_append_right _ (List.mem_singleton_self k)) (hx ▸ hk3)
      have hk3nek : k3 ≠ "keys" := by
        intro hx
        exact hkk (hx ▸ List.mem_append_right _ hk3)
      rw [hc1ns, heval]
      rw [if_neg (fun hx => hk3ne (ns_append_inj hx))]
      rw [if_neg (fun hx => hk3nek (ns_append_inj hx))]
      by_cases hmem : (c.ns ++ k3) ∈ ((c.keys ++ [k]).take ((c.keys ++ [k]).length - c.capacity)).map (fun k2 => c.ns ++ k2)
      · rw [if_pos hmem]
      · rw [if_neg hmem]
        exact hfresh _ (List.mem_cons_of_mem k hk3)
    have hnd2 : ((c.set st 0 k (val k)).1.keys ++ l').Nodup := by
      refine hnd.sublist ?_
      rw [hc1keys]
      exact (lastN_sublist c.capacity (c.keys ++ [k])).append_right l'
    have hkk2 : "keys" ∉ (c.set st 0 k (val k)).1.keys ++ l' := by
      intro hm
      rcases List.mem_append.mp hm with h1 | h1
      · exact hkeysnotin1 (hkept_sub _ (hc1keys ▸ h1))
      · exact hkk (List.mem_append_right _ h1)
    have hlen2 : (c.set st 0 k (val k)).1.keys.length ≤ c.capacity := by
      rw [hc1keys]
      exact lastN_length_le _ _
    have hih := ih (c.set st 0 k (val k)).1 (c.set st 0 k (val k)).2 hc1cap hnd2 hkk2
      hlen2 hentries1 hfresh1
    have hlast2 : lastN c.capacity ((c.set st 0 k (val k)).1.keys ++ l')
        = lastN c.capacity (c.keys ++ k :: l') := by
      rw [hc1keys, lastN_append_lastN, hassoc]
    have hrun : runOps (c, st)
          (CacheOp.set 0 k (val k) :: l'.map (fun k2 => CacheOp.set 0 k2 (val k2)))
        = runOps ((c.set st 0 k (val k)).1, (c.set st 0 k (val k)).2)
            (l'.map (fun k2 => CacheOp.set 0 k2 (val k2))) := by
      rw [runOps, List.foldl_cons]
      rfl
    have hc1sub : ∀ k2 ∈ (c.set st 0 k (val k)).1.keys, k2 ∈ c.keys ++ [k] := by
      intro k2 h2
      exact hkept_sub _ (hc1keys ▸ h2)
    refine ⟨?_, ?_, ?_, ?_⟩
    · rw [hrun, hih.1, hlast2, hc1ns, hc1max, hc1cap]
    · intro k2 hk2
      rw [hrun]
      rw [← hlast2] at hk2
      have := hih.2.1 k2 hk2
      rwa [hc1ns] at this
    · intro k4 hk4 hnk4
      rw [hrun]
      rw [← hlast2] at hnk4
      by_cases hin : k4 ∈ (c.set st 0 k (val k)).1.keys ++ l'
      · have := hih.2.2.1 k4 hin hnk4
        rwa [hc1ns] at this
      · have hk4ne : k4 ≠ "keys" := by
          intro hx
          subst hx
          exact hkk (hassoc ▸ hk4)
        have := hih.2.2.2 k4 hin hk4ne
        rw [hc1ns] at this
        rw [this, heval]
        have hk4nk : k4 ≠ k := by
          intro hx
          subst hx
          exact hin (List.mem_append_left _ (hc1keys ▸ hkmem))
        have hk4mem1 : k4 ∈ c.keys ++ [k] := by
          rcases List.mem_append.mp hk4 with h1 | h1
          · exact List.mem_append_left _ h1
          · rcases List.mem_cons.mp h1 with h2 | h2
            · exact absurd h2 hk4nk
            · exact absurd (List.mem_append_right _ h2) hin
        have hk4take : k4 ∈ (c.keys ++ [k]).take ((c.keys ++ [k]).length - c.capacity) := by
          have hsplit := List.take_append_drop ((c.keys ++ [k]).length - c.capacity) (c.keys ++ [k])
          conv at hk4mem1 => rw [← hsplit]
          rcases List.mem_append.mp hk4mem1 with h1 | h1
          · exact h1
          · exfalso
            refine hin (List.mem_append_left _ ?_)
            rw [hc1keys]
            exact h1
        rw [if_neg (fun hx => hk4nk (ns_append_inj hx))]
        rw [if_neg (fun hx => hk4ne (ns_append_inj hx))]
        rw [if_pos (mem_map_ns.mpr hk4take)]
    · intro k2 hnot hk2ne
      rw [hrun]
      have hnot1 : k2 ∉ (c.set st 0 k (val k)).1.keys ++ l' := by
        intro hm
        rcases List.mem_append.mp hm with h1 | h1
        · rcases List.mem_append.mp (hc1sub _ h1) with h2 | h2
          · exact hnot (List.mem_append_left _ h2)
          · exact hnot (List.mem_append_right _
              (List.mem_cons.mpr (Or.inl (List.mem_singleton.mp h2))))
        · exact hnot (List.mem_append_right _ (List.mem_cons_of_mem k h1))
      have := hih.2.2.2 k2 hnot1 hk2ne
      rw [hc1ns] at this
      rw [this, heval]
      have hk2nk : k2 ≠ k := by
        intro hx
        subst hx
        exact hnot (List.mem_append_right _ (List.mem_cons_self k2 l'))
      rw [if_neg (fun hx => hk2nk (ns_append_inj hx))]
      rw [if_neg (fun hx => hk2ne (ns_append_inj hx))]
      have hnottake : k2 ∉ (c.keys ++ [k]).take ((c.keys ++ [k]).length - c.capacity) := by
        intro hm
        have hmm : k2 ∈ c.keys ++ [k] := (List.take_sublist _ _).subset hm
        rcases List.mem_append.mp hmm with h2 | h2
        · exact hnot (List.mem_append_left _ h2)
        · exact hk2nk (List.mem_singleton.mp h2)
      rw [if_neg (fun hx => hnottake (mem_map_ns.mp hx))]

/-- Sequential cache reads at time `now`: each read is a hit and
leaves the read key at the most-recently-used end of the index. -/
def hitsAndPromotes {α : Type} (now : Int) : LRUCache α × Store α → List String → Prop
  | _, [] => True
  | s, k :: rem =>
    ((s.1.get s.2 now k).1.isSome = true)
    ∧ ((s.1.get s.2 now k).2.1.keys.getLast? = some k)
    ∧ hitsAndPromotes now ((s.1.get s.2 now k).2.1, (s.1.get s.2 now k).2.2) rem

/-- Reading keys that all have fresh entries hits and promotes each of
them in turn. -/
lemma hits_of_entries {α : Type} (val : String → α) :
    ∀ (rem : List String) (c : LRUCache α) (st : Store α),
      (∀ k ∈ rem, k ∈ c.keys) →
      (∀ k ∈ c.keys, st (c.ns ++ k) = some (.item (val k) 0)) →
      "keys" ∉ c.keys →
      0 ≤ c.maxAge →
      hitsAndPromotes 0 (c, st) rem := by
  intro rem
  induction rem with
  | nil =>
    intro c st _ _ _ _
    trivial
  | cons k rem' ih =>
    intro c st hmem hentries hkk hage
    have hkmem : k ∈ c.keys := hmem k (List.mem_cons_self k rem')
    have hentry : st (c.ns ++ k) = some (.item (val k) 0) := hentries k hkmem
    have hnotexp : ¬ c.maxAge < (0 : Int) - 0 := by omega
    have hmain : c.get st 0 k
        = (some (val k), { c with keys := c.keys.erase k ++ [k] },
           storeSet st (c.ns ++ "keys") (.keysDoc (c.keys.erase k ++ [k]))) := by
      rw [LRUCache.get, hentry]
      dsimp only
      rw [if_neg hnotexp, LRUCache.promoteKey, if_pos hkmem, LRUCache.saveKeys]
    have hget1 : (c.get st 0 k).1 = some (val k) := by rw [hmain]
    have hgetc : (c.get st 0 k).2.1 = { c with keys := c.keys.erase k ++ [k] } := by
      rw [hmain]
    have hgets : (c.get st 0 k).2.2
        = storeSet st (c.ns ++ "keys") (.keysDoc (c.keys.erase k ++ [k])) := by
      rw [hmain]
    rw [hitsAndPromotes]
    refine ⟨?_, ?_, ?_⟩
    · rw [hget1]
      rfl
    · rw [hgetc]
      exact List.getLast?_concat _
    · rw [hgetc, hgets]
      refine ih _ _ ?_ ?_ ?_ hage
      · intro k2 hk2
        have hk2keys : k2 ∈ c.keys := hmem k2 (List.mem_cons_of_mem k hk2)
        by_cases he : k2 = k
        · subst he
          exact List.mem_append_right _ (List.mem_singleton_self k2)
        · exact List.mem_append_left _ ((List.mem_erase_of_ne he).mpr hk2keys)
      · intro k2 hk2
        have hk2keys : k2 ∈ c.keys := by
          rcases List.mem_append.mp hk2 with h1 | h1
          · exact (List.erase_subset _ _) h1
          · exact (List.mem_singleton.mp h1) ▸ hkmem
        have hk2ne : k2 ≠ "keys" := fun hx => hkk (hx ▸ hk2keys)
        rw [storeSet_other _ _ _ (fun hx => hk2ne (ns_append_inj hx))]
        exact hentries _ hk2keys
      · intro hm
        rcases List.mem_append.mp hm with h1 | h1
        · exact hkk ((List.erase_subset _ _) h1)
        · exact hkk ((List.mem_singleton.mp h1) ▸ hkmem)

/-- C8 (amended). For every capacity C ≥ 1, after inserting C+1
distinct keys (none of them the reserved index name `keys`) into a
fresh cache, all within max age: reading the first key is a miss (its
entry was evicted), and reading the remaining C keys in order hits
each one and re-promotes it to most-recently-used. -/
theorem lruEvictsOldestThenHits {α : Type} (ns : String) (maxAge : Int) (cap : Nat)
    (val : String → α) (k1 : String) (rest : List String)
    (hcap : 1 ≤ cap) (hlen : rest.length = cap) (hnd : (k1 :: rest).Nodup)
    (hkk : "keys" ∉ k1 :: rest) (hage : 0 ≤ maxAge) :
    ((runOps ((⟨ns, maxAge, cap, []⟩ : LRUCache α), emptyStore)
        ((k1 :: rest).map (fun k => CacheOp.set 0 k (val k)))).1.get
      (runOps ((⟨ns, maxAge, cap, []⟩ : LRUCache α), emptyStore)
        ((k1 :: rest).map (fun k => CacheOp.set 0 k (val k)))).2 0 k1).1 = none
  ∧ hitsAndPromotes 0
      (runOps ((⟨ns, maxAge, cap, []⟩ : LRUCache α), emptyStore)
        ((k1 :: rest).map (fun k => CacheOp.set 0 k (val k)))) rest := by
  have hspec := insertRun_spec cap val hcap (k1 :: rest) ⟨ns, maxAge, cap, []⟩ emptyStore
    rfl hnd hkk (Nat.zero_le cap)
    (fun k hk => absurd hk (List.not_mem_nil k))
    (fun k _ => rfl)
  have hkeys : lastN cap (k1 :: rest) = rest := by
    unfold lastN
    have hone : (k1 :: rest).length - cap = 1 := by
      rw [List.length_cons, hlen]
      omega
    rw [hone]
    rfl
  have hk1notin : k1 ∉ rest := (List.nodup_cons.mp hnd).1
  have hkkrest : "keys" ∉ rest := fun hm => hkk (List.mem_cons_of_mem k1 hm)
  dsimp only [List.nil_append] at hspec
  rw [hkeys] at hspec
  constructor
  · rw [LRUCache.get]
    have hns : (runOps ((⟨ns, maxAge, cap, []⟩ : LRUCache α), emptyStore)
        ((k1 :: rest).map (fun k => CacheOp.set 0 k (val k)))).1.ns = ns := by
      rw [hspec.1]
    rw [hns]
    have hmiss := hspec.2.2.1 k1 (List.mem_cons_self k1 rest) hk1notin
    rw [hmiss]
  · have hpair := hits_of_entries val rest
      (runOps ((⟨ns, maxAge, cap, []⟩ : LRUCache α), emptyStore)
        ((k1 :: rest).map (fun k => CacheOp.set 0 k (val k)))).1
      (runOps ((⟨ns, maxAge, cap, []⟩ : LRUCache α), emptyStore)
        ((k1 :: rest).map (fun k => CacheOp.set 0 k (val k)))).2
    refine hpair ?_ ?_ ?_ ?_
    · intro k hk
      rw [hspec.1]
      exact hk
    · intro k hk
      rw [hspec.1] at hk
      have hent := hspec.2.1 k hk
      have hns : (runOps ((⟨ns, maxAge, cap, []⟩ : LRUCache α), emptyStore)
          ((k1 :: rest).map (fun k => CacheOp.set 0 k (val k)))).1.ns = ns := by
        rw [hspec.1]
      rw [hns]
      exact hent
    · intro hm
      rw [hspec.1] at hm
      exact hkkrest hm
    · rw [hspec.1]
      exact hage

/-- Witness for C8 (amended): capacity 2, keys `a`, `b`, `c`. -/
theorem lruEvictsOldestThenHits_w :
    ((runOps ((⟨"t_", 1000, 2, []⟩ : LRUCache Nat), emptyStore)
        (["a", "b", "c"].map (fun k => CacheOp.set 0 k 7))).1.get
      (runOps ((⟨"t_", 1000, 2, []⟩ : LRUCache Nat), emptyStore)
        (["a", "b", "c"].map (fun k => CacheOp.set 0 k 7))).2 0 "a").1 = none
  ∧ hitsAndPromotes 0
      (runOps ((⟨"t_", 1000, 2, []⟩ : LRUCache Nat), emptyStore)
        (["a", "b", "c"].map (fun k => CacheOp.set 0 k 7))) ["b", "c"] :=
  lruEvictsOldestThenHits "t_" 1000 2 (fun _ => 7) "a" ["b", "c"]
    (by decide) rfl (by decide) (by decide) (by decide)

/-- Counterexample to C8 as stated. First conjunct: with capacity
C = 0, after inserting one key, `get(k1)` is a hit (the claim says it
is a miss): the eviction precedes the entry write, which survives.
Second conjunct: with capacity 2 and the middle key literally named
`keys`, its entry is clobbered by the cache's own index document and
its read is a miss (the claim says a hit). -/
theorem lruCapacityZeroGetIsHit :
    ((runOps ((⟨"t_", 3600000, 0, []⟩ : LRUCache Nat), emptyStore)
        [CacheOp.set 0 "k1" 7]).1.get
      (runOps ((⟨"t_", 3600000, 0, []⟩ : LRUCache Nat), emptyStore)
        [CacheOp.set 0 "k1" 7]).2 0 "k1").1 = some 7
  ∧ ((runOps ((⟨"t_", 3600000, 2, []⟩ : LRUCache Nat), emptyStore)
        [CacheOp.set 0 "a" 1, CacheOp.set 0 "keys" 2, CacheOp.set 0 "b" 3]).1.get
      (runOps ((⟨"t_", 3600000, 2, []⟩ : LRUCache Nat), emptyStore)
        [CacheOp.set 0 "a" 1, CacheOp.set 0 "keys" 2, CacheOp.set 0 "b" 3]).2 0 "keys").1
      = none :=
  ⟨rfl, rfl⟩

/-! ## C5: index/store consistency after every completed operation -/

/-- Strengthened invariant for the induction: consistency plus a
duplicate-free index avoiding the reserved name. -/
def CacheWF {α : Type} (c : LRUCache α) (st : Store α) : Prop :=
  CacheInv c st ∧ c.keys.Nodup ∧ "keys" ∉ c.keys

/-- `_promoteKey` preserves the invariant (and the capacity). -/
lemma promoteKey_wf {α : Type} {c : LRUCache α} {st : Store α} {key : String}
    (h : CacheWF c st) (hk : key ≠ "keys") :
    CacheWF (c.promoteKey st key).1 (c.promoteKey st key).2
  ∧ (c.promoteKey st key).1.capacity = c.capacity := by
  obtain ⟨⟨hinv1, hinv2⟩, hnd, hkk⟩ := h
  unfold LRUCache.promoteKey LRUCache.saveKeys
  by_cases hmem : key ∈ c.keys
  · rw [if_pos hmem]
    dsimp only
    have hmemiff : ∀ x, x ∈ c.keys.erase key ++ [key] ↔ x ∈ c.keys := by
      intro x
      constructor
      · intro hx
        rcases List.mem_append.mp hx with h1 | h1
        · exact (List.erase_subset _ _) h1
        · exact (List.mem_singleton.mp h1) ▸ hmem
      · intro hx
        by_cases he : x = key
        · exact he ▸ List.mem_append_right _ (List.mem_singleton_self _)
        · exact List.mem_append_left _ ((List.mem_erase_of_ne he).mpr hx)
    refine ⟨⟨⟨?_, ?_⟩, ?_, ?_⟩, rfl⟩
    · intro k hk2
      have hk2keys := (hmemiff k).mp hk2
      have hkne : k ≠ "keys" := fun hx => hkk (hx ▸ hk2keys)
      rw [storeSet_other _ _ _ (fun hx => hkne (ns_append_inj hx))]
      exact hinv1 k hk2keys
    · intro a v ts ha
      by_cases he : a = c.ns ++ "keys"
      · subst he
        rw [storeSet_self] at ha
        exact absurd ha (by simp)
      · rw [storeSet_other _ _ _ he] at ha
        obtain ⟨k, hkmem2, hae⟩ := hinv2 a v ts ha
        exact ⟨k, (hmemiff k).mpr hkmem2, hae⟩
    · rw [List.nodup_append]
      refine ⟨hnd.erase key, List.nodup_singleton key, ?_⟩
      intro a ha hb
      rw [List.mem_singleton] at hb
      subst hb
      exact (List.Nodup.not_mem_erase hnd) ha
    · intro hm
      exact hkk ((hmemiff _).mp hm)
  · rw [if_neg hmem]
    exact ⟨⟨⟨hinv1, hinv2⟩, hnd, hkk⟩, rfl⟩

/-- `remove` preserves the invariant (and the capacity). -/
lemma remove_wf {α : Type} {c : LRUCache α} {st : Store α} {key : String}
    (h : CacheWF c st) (hk : key ≠ "keys") :
    CacheWF (c.remove st key).1 (c.remove st key).2
  ∧ (c.remove st key).1.capacity = c.capacity := by
  obtain ⟨⟨hinv1, hinv2⟩, hnd, hkk⟩ := h
  unfold LRUCache.remove LRUCache.saveKeys
  dsimp only
  refine ⟨⟨⟨?_, ?_⟩, ?_, ?_⟩, rfl⟩
  · intro k hk2
    have hmem := List.mem_of_mem_filter hk2
    have hkne2 : k ≠ key := by
      have := List.of_mem_filter hk2
      simpa using this
    have hknek : k ≠ "keys" := fun hx => hkk (hx ▸ hmem)
    rw [storeSet_other _ _ _ (fun hx => hknek (ns_append_inj hx))]
    rw [storeRemove_other _ _ (fun hx => hkne2 (ns_append_inj hx))]
    exact hinv1 k hmem
  · intro a v ts ha
    by_cases he : a = c.ns ++ "keys"
    · subst he
      rw [storeSet_self] at ha
      exact absurd ha (by simp)
    · rw [storeSet_other _ _ _ he] at ha
      by_cases he2 : a = c.ns ++ key
      · subst he2
        rw [storeRemove_self] at ha
        exact absurd ha (by simp)
      · rw [storeRemove_other _ _ he2] at ha
        obtain ⟨k, hkmem2, hae⟩ := hinv2 a v ts ha
        have hkne2 : k ≠ key := fun hx => he2 (by rw [hae, hx])
        refine ⟨k, List.mem_filter.mpr ⟨hkmem2, by simpa using hkne2⟩, hae⟩
  · exact hnd.filter _
  · intro hm
    exact hkk (List.mem_of_mem_filter hm)

/-- `get` preserves the invariant (and the capacity). -/
lemma get_wf {α : Type} {c : LRUCache α} {st : Store α} (now : Int) {key : String}
    (h : CacheWF c st) (hk : key ≠ "keys") :
    CacheWF (c.get st now key).2.1 (c.get st now key).2.2
  ∧ (c.get st now key).2.1.capacity = c.capacity := by
  cases hdoc : st (c.ns ++ key) with
  | none =>
    unfold LRUCache.get
    rw [hdoc]
    exact ⟨h, rfl⟩
  | some d =>
    cases d with
    | item v ts =>
      unfold LRUCache.get
      rw [hdoc]
      dsimp only
      by_cases hexp : c.maxAge < now - ts
      · rw [if_pos hexp]
        exact remove_wf h hk
      · rw [if_neg hexp]
        exact promoteKey_wf h hk
    | keysDoc ks =>
      unfold LRUCache.get
      rw [hdoc]
      dsimp only
      exact promoteKey_wf h hk

/-- `clear` preserves the invariant (and the capacity). -/
lemma clear_wf {α : Type} {c : LRUCache α} {st : Store α} (h : CacheWF c st) :
    CacheWF (c.clear st).1 (c.clear st).2
  ∧ (c.clear st).1.capacity = c.capacity := by
  obtain ⟨⟨_, hinv2⟩, _, _⟩ := h
  unfold LRUCache.clear
  dsimp only
  refine ⟨⟨⟨?_, ?_⟩, List.nodup_nil, List.not_mem_nil _⟩, rfl⟩
  · intro k hk2
    exact absurd hk2 (List.not_mem_nil k)
  · intro a v ts ha
    by_cases he : a = c.ns ++ "keys"
    · subst he
      rw [storeRemove_self] at ha
      exact absurd ha (by simp)
    · rw [storeRemove_other _ _ he] at ha
      rw [foldl_storeRemove_eval] at ha
      by_cases hm : a ∈ c.keys.map (fun k => c.ns ++ k)
      · rw [if_pos hm] at ha
        exact absurd ha (by simp)
      · rw [if_neg hm] at ha
        obtain ⟨k, hkmem, hae⟩ := hinv2 a v ts ha
        exact absurd (List.mem_map.mpr ⟨k, hkmem, hae.symm⟩) hm

/-- Core of the `set` preservation argument, parameterized by the
spliced key list `ks0` (the index with an existing occurrence of the
key removed). -/
lemma set_wf_aux {α : Type} {c : LRUCache α} {st : Store α} {now : Int} {key : String}
    {value : α} {ks0 : List String}
    (hinv1 : ∀ k ∈ c.keys, ∃ v ts, st (c.ns ++ k) = some (Doc.item v ts))
    (hinv2 : ∀ a v ts, st a = some (Doc.item v ts) → ∃ k ∈ c.keys, a = c.ns ++ k)
    (hkk : "keys" ∉ c.keys)
    (hnd0 : ks0.Nodup) (hknot : key ∉ ks0) (hsub : ∀ x ∈ ks0, x ∈ c.keys)
    (hback : ∀ x ∈ c.keys, x ≠ key → x ∈ ks0)
    (hcap : 1 ≤ c.capacity) (hk : key ≠ "keys")
    (hkeys1 : (c.set st now key value).1
        = { c with keys := lastN c.capacity (ks0 ++ [key]) })
    (heval : ∀ a, (c.set st now key value).2 a =
        (if a = c.ns ++ key then some (.item value now)
         else if a = c.ns ++ "keys" then
           some (.keysDoc (lastN c.capacity (ks0 ++ [key])))
         else if a ∈ ((ks0 ++ [key]).take ((ks0 ++ [key]).length - c.capacity)).map
             (fun k2 => c.ns ++ k2) then none
         else st a)) :
    CacheWF (c.set st now key value).1 (c.set st now key value).2
  ∧ (c.set st now key value).1.capacity = c.capacity := by
  have hnd1 : (ks0 ++ [key]).Nodup := by
    rw [List.nodup_append]
    refine ⟨hnd0, List.nodup_singleton key, ?_⟩
    intro a ha hb
    rw [List.mem_singleton] at hb
    exact hknot (hb ▸ ha)
  have hkept_sub : ∀ k2 ∈ lastN c.capacity (ks0 ++ [key]), k2 ∈ ks0 ++ [key] :=
    fun k2 h2 => (lastN_sublist _ _).subset h2
  have hkmem : key ∈ lastN c.capacity (ks0 ++ [key]) := last_mem_lastN hcap _ _
  have hcapeq : (c.set st now key value).1.capacity = c.capacity := by
    rw [hkeys1]
  have hns : (c.set st now key value).1.ns = c.ns := by
    rw [hkeys1]
  refine ⟨⟨⟨?_, ?_⟩, ?_, ?_⟩, hcapeq⟩
  · intro k2 hk2
    rw [hkeys1] at hk2
    rw [hns, heval]
    by_cases he : k2 = key
    · subst he
      rw [if_pos rfl]
      exact ⟨value, now, rfl⟩
    · rw [if_neg (fun hx => he (ns_append_inj hx))]
      have hk2ks0 : k2 ∈ ks0 := by
        rcases List.mem_append.mp (hkept_sub _ hk2) with h1 | h1
        · exact h1
        · exact absurd (List.mem_singleton.mp h1) he
      have hk2keys : k2 ∈ c.keys := hsub _ hk2ks0
      have hk2ne : k2 ≠ "keys" := fun hx => hkk (hx ▸ hk2keys)
      rw [if_neg (fun hx => hk2ne (ns_append_inj hx))]
      have hnottake := not_mem_take_of_mem_lastN hnd1 hk2
      rw [if_neg (fun hx => hnottake (mem_map_ns.mp hx))]
      exact hinv1 _ hk2keys
  · intro a v ts ha
    rw [heval] at ha
    rw [hkeys1]
    by_cases h1 : a = c.ns ++ key
    · exact ⟨key, hkmem, h1⟩
    · rw [if_neg h1] at ha
      by_cases h2 : a = c.ns ++ "keys"
      · rw [if_pos h2] at ha
        exact absurd ha (by simp)
      · rw [if_neg h2] at ha
        by_cases h3 : a ∈ ((ks0 ++ [key]).take ((ks0 ++ [key]).length - c.capacity)).map
            (fun k2 => c.ns ++ k2)
        · rw [if_pos h3] at ha
          exact absurd ha (by simp)
        · rw [if_neg h3] at ha
          obtain ⟨k, hkmem2, hae⟩ := hinv2 a v ts ha
          have hkne : k ≠ key := fun hx => h1 (by rw [hae, hx])
          have hkks0 : k ∈ ks0 := hback _ hkmem2 hkne
          have hknottake : k ∉ (ks0 ++ [key]).take ((ks0 ++ [key]).length - c.capacity) := by
            intro hmm
            exact h3 (hae ▸ mem_map_ns.mpr hmm)
          have hkkept : k ∈ lastN c.capacity (ks0 ++ [key]) := by
            have hsplit := List.take_append_drop ((ks0 ++ [key]).length - c.capacity)
              (ks0 ++ [key])
            have hmm : k ∈ ks0 ++ [key] := List.mem_append_left _ hkks0
            conv at hmm => rw [← hsplit]
            rcases List.mem_append.mp hmm with hx | hx
            · exact absurd hx hknottake
            · exact hx
          exact ⟨k, hkkept, hae⟩
  · rw [hkeys1]
    exact hnd1.sublist (lastN_sublist _ _)
  · rw [hkeys1]
    intro hm
    rcases List.mem_append.mp (hkept_sub _ hm) with h1 | h1
    · exact hkk (hsub _ h1)
    · exact hk (List.mem_singleton.mp h1).symm

/-- `set` preserves the invariant (and the capacity). -/
lemma set_wf {α : Type} {c : LRUCache α} {st : Store α} (now : Int) {key : String}
    (value : α) (h : CacheWF c st) (hk : key ≠ "keys") (hcap : 1 ≤ c.capacity) :
    CacheWF (c.set st now key value).1 (c.set st now key value).2
  ∧ (c.set st now key value).1.capacity = c.capacity := by
  obtain ⟨⟨hinv1, hinv2⟩, hnd, hkk⟩ := h
  have hset := set_eval c st now key value
  by_cases hmem : key ∈ c.keys
  · rw [if_pos hmem] at hset
    refine set_wf_aux hinv1 hinv2 hkk (hnd.erase key) (List.Nodup.not_mem_erase hnd)
      (fun x hx => (List.erase_subset _ _) hx)
      (fun x hx hne => (List.mem_erase_of_ne hne).mpr hx)
      hcap hk hset.1 ?_
    intro a
    exact hset.2 a
  · rw [if_neg hmem] at hset
    refine set_wf_aux hinv1 hinv2 hkk hnd hmem
      (fun x hx => hx)
      (fun x hx _ => hx)
      hcap hk hset.1 ?_
    intro a
    exact hset.2 a

/-- Any single public operation with a non-reserved key preserves the
invariant and the capacity, given capacity at least 1. -/
lemma applyOp_wf {α : Type} (s : LRUCache α × Store α) (op : CacheOp α)
    (h : CacheWF s.1 s.2) (hcap : 1 ≤ s.1.capacity) (hop : op.avoidsIndexKey = true) :
    CacheWF (applyOp s op).1 (applyOp s op).2
  ∧ (applyOp s op).1.capacity = s.1.capacity := by
  cases op with
  | get now key =>
    have hk : key ≠ "keys" := by simpa [CacheOp.avoidsIndexKey] using hop
    exact get_wf now h hk
  | set now key v =>
    have hk : key ≠ "keys" := by simpa [CacheOp.avoidsIndexKey] using hop
    exact set_wf now v h hk hcap
  | remove key =>
    have hk : key ≠ "keys" := by simpa [CacheOp.avoidsIndexKey] using hop
    exact remove_wf h hk
  | clear =>
    exact clear_wf h

/-- Running a sequence of operations with non-reserved keys preserves
the invariant. -/
lemma runOps_wf {α : Type} :
    ∀ (ops : List (CacheOp α)) (s : LRUCache α × Store α),
      CacheWF s.1 s.2 → 1 ≤ s.1.capacity →
      (∀ op ∈ ops, op.avoidsIndexKey = true) →
      CacheWF (runOps s ops).1 (runOps s ops).2 := by
  intro ops
  induction ops with
  | nil =>
    intro s h _ _
    exact h
  | cons op rest ih =>
    intro s h hcap hall
    rw [runOps, List.foldl_cons]
    have hop := applyOp_wf s op h hcap (hall op (List.mem_cons_self op rest))
    exact ih _ hop.1 (hop.2 ▸ hcap) (fun o ho => hall o (List.mem_cons_of_mem op ho))

/-- C5 (amended). Starting from an empty cache over an empty store,
after every completed sequence of public operations — provided the
capacity is at least 1 and no operation uses the reserved key name
`keys` — every key in the index has a stored entry and every stored
entry's key appears in the index. -/
theorem cacheIndexStoreConsistency {α : Type} (ns : String) (maxAge : Int) (cap : Nat)
    (ops : List (CacheOp α)) (hcap : 1 ≤ cap)
    (hops : ∀ op ∈ ops, op.avoidsIndexKey = true) :
    CacheInv (runOps ((⟨ns, maxAge, cap, []⟩ : LRUCache α), emptyStore) ops).1
             (runOps ((⟨ns, maxAge, cap, []⟩ : LRUCache α), emptyStore) ops).2 := by
  have hwf0 : CacheWF (⟨ns, maxAge, cap, []⟩ : LRUCache α) (emptyStore (α := α)) := by
    refine ⟨⟨?_, ?_⟩, List.nodup_nil, List.not_mem_nil _⟩
    · intro k hk
      exact absurd hk (List.not_mem_nil k)
    · intro a v ts ha
      exact absurd ha (by simp [emptyStore])
  exact (runOps_wf ops _ hwf0 hcap hops).1

/-- Witness for C5 (amended): a concrete mixed operation sequence on a
capacity-2 cache. -/
theorem cacheIndexStoreConsistency_w :
    CacheInv (runOps ((⟨"yt_search_", 3600000, 2, []⟩ : LRUCache Nat), emptyStore)
        [CacheOp.set 0 "a" 1, CacheOp.get 1 "a", CacheOp.set 2 "b" 2,
         CacheOp.set 3 "c" 3, CacheOp.remove "b", CacheOp.clear, CacheOp.set 4 "d" 4]).1
      (runOps ((⟨"yt_search_", 3600000, 2, []⟩ : LRUCache Nat), emptyStore)
        [CacheOp.set 0 "a" 1, CacheOp.get 1 "a", CacheOp.set 2 "b" 2,
         CacheOp.set 3 "c" 3, CacheOp.remove "b", CacheOp.clear, CacheOp.set 4 "d" 4]).2 :=
  cacheIndexStoreConsistency "yt_search_" 3600000 2 _ (by decide) (by decide)

/-- Counterexample to C5 as stated. First conjunct: capacity 0 — after
one completed `set`, the store holds the orphaned entry while the
index is empty. Second conjunct: a key literally named `keys` —
after `set("keys", 1)` then `set("other", 2)` the index lists `keys`
but the document at its full key is the cache's own persisted index,
not an entry. -/
theorem cacheInvariantFailsAfterOps :
    ¬ CacheInv (runOps ((⟨"yt_search_", 3600000, 0, []⟩ : LRUCache Nat), emptyStore)
        [CacheOp.set 0 "k" 42]).1
      (runOps ((⟨"yt_search_", 3600000, 0, []⟩ : LRUCache Nat), emptyStore)
        [CacheOp.set 0 "k" 42]).2
  ∧ ¬ CacheInv (runOps ((⟨"yt_search_", 3600000, 5, []⟩ : LRUCache Nat), emptyStore)
        [CacheOp.set 0 "keys" 1, CacheOp.set 1 "other" 2]).1
      (runOps ((⟨"yt_search_", 3600000, 5, []⟩ : LRUCache Nat), emptyStore)
        [CacheOp.set 0 "keys" 1, CacheOp.set 1 "other" 2]).2 := by
  constructor
  · intro hinv
    obtain ⟨k, hk, _⟩ := hinv.2 ("yt_search_" ++ "k") 42 0 rfl
    have hkeys : (runOps ((⟨"yt_search_", 3600000, 0, []⟩ : LRUCache Nat), emptyStore)
        [CacheOp.set 0 "k" 42]).1.keys = [] := rfl
    rw [hkeys] at hk
    exact absurd hk (List.not_mem_nil k)
  · intro hinv
    have hmem : "keys" ∈ (runOps ((⟨"yt_search_", 3600000, 5, []⟩ : LRUCache Nat),
        emptyStore) [CacheOp.set 0 "keys" 1, CacheOp.set 1 "other" 2]).1.keys := by
      have hkeys : (runOps ((⟨"yt_search_", 3600000, 5, []⟩ : LRUCache Nat), emptyStore)
          [CacheOp.set 0 "keys" 1, CacheOp.set 1 "other" 2]).1.keys
            = ["keys", "other"] := rfl
      rw [hkeys]
      exact List.mem_cons_self _ _
    obtain ⟨v, ts, hv⟩ := hinv.1 "keys" hmem
    have hns2 : (runOps ((⟨"yt_search_", 3600000, 5, []⟩ : LRUCache Nat), emptyStore)
        [CacheOp.set 0 "keys" 1, CacheOp.set 1 "other" 2]).1.ns = "yt_search_" := rfl
    rw [hns2] at hv
    have hdoc : (runOps ((⟨"yt_search_", 3600000, 5, []⟩ : LRUCache Nat), emptyStore)
        [CacheOp.set 0 "keys" 1, CacheOp.set 1 "other" 2]).2
          ("yt_search_" ++ "keys") = some (.keysDoc ["keys", "other"]) := rfl
    rw [hdoc] at hv
    exact absurd hv (by simp)
